import Mathlib

/-!
Verification of the open-mail IMAP/SMTP manager core.

This file gives a shallow embedding, in Lean 4, of the parts of the
open-mail repository that the specification's quantified claims are about:

* the `_simple_command` IDLE bracketing of `IMAPManager`
  (`src/src-tauri/src/server/openmail/imap.py`);
* the sequence-set validator `_is_sequence_set_valid` and its regex
  `SEQUENCE_SET_PATTERN`;
* `delete_email` / `move_email` and a small mailbox-state semantics for
  UID MOVE / STORE `\Deleted` / EXPUNGE;
* the modified UTF-7 folder-name codec
  (`src/src-tauri/src/python_scripts/openmail/utils.py`);
* the search-query builder (`recursive_or_query`, `add_criterion`,
  `build_search_criteria_query`);
* the `search_emails` result cache and the `get_emails` paging arithmetic;
* the attachment-size gate of `SMTPManager.send_email`
  (`src/src-tauri/src/server/openmail/smtp.py`);
* the folder-name validator `_check_folder_names`;
* the `IDLE_TIMEOUT` constant and the idle-keeper refresh condition.

Python strings are modelled as Lean `String` / `List Char` (or, for the
codec, as lists of Unicode code points `List Nat`); Python exceptions are
modelled with `Except` / `Option`; machine-level details that the claims do
not touch (sockets, threads, actual MIME assembly) are abstracted into
event traces.
-/

namespace OpenMail

/-! ### Small Python-string helpers shared by several embeddings -/

/-- Python `str.split(sep)` for a single-character separator: keeps empty
parts, so `"a,,b".split(",") = ["a", "", "b"]`. -/
def pySplitChar (sep : Char) : List Char → List (List Char)
  | [] => [[]]
  | c :: rest =>
    let r := pySplitChar sep rest
    if c = sep then [] :: r
    else match r with
      | [] => [[c]]
      | h :: t => (c :: h) :: t

/-- Python `str.split()` with no argument: splits on runs of whitespace and
drops empty parts.  Whitespace is modelled as the space character, which is
the only separator that occurs in IMAP `SEARCH` responses. -/
def pySplitWs (l : List Char) : List (List Char) :=
  (pySplitChar ' ' l).filter (fun p => p ≠ [])

def isAsciiDigit (c : Char) : Bool := '0' ≤ c ∧ c ≤ '9'

/-- Value of a decimal digit character. -/
def digitVal (c : Char) : Nat := c.toNat - '0'.toNat

/-- Python `int(s)` restricted to non-empty ASCII digit strings; every other
string is mapped to `none` (a `ValueError` in Python).  The Python `int`
also accepts signs, surrounding whitespace and non-ASCII decimal digits;
none of those occur in the strings this development feeds to it. -/
def pyInt (l : List Char) : Option Nat :=
  if l ≠ [] ∧ l.all isAsciiDigit then
    some (l.foldl (fun acc c => acc * 10 + digitVal c) 0)
  else none

/-- Decimal digit characters. -/
def decDigit (d : Nat) : Char :=
  match d with
  | 0 => '0' | 1 => '1' | 2 => '2' | 3 => '3' | 4 => '4'
  | 5 => '5' | 6 => '6' | 7 => '7' | 8 => '8' | _ => '9'

/-- Decimal rendering with a structural fuel so that it reduces in the
kernel; the fuel `n + 1` always suffices since `n / 10 < n`. -/
def natToStrAux : Nat → Nat → List Char
  | 0, _ => []
  | fuel + 1, n =>
    if n < 10 then [decDigit n]
    else natToStrAux fuel (n / 10) ++ [decDigit (n % 10)]

/-- Decimal rendering of a natural number, as Python `str(n)` produces it. -/
def natToStr (n : Nat) : List Char := natToStrAux (n + 1) n


/-- Python `str.strip()`: removes leading and trailing whitespace. -/
def pyStrip (l : List Char) : List Char :=
  ((l.dropWhile (· = ' ')).reverse.dropWhile (· = ' ')).reverse

/-! ### C1 — `_simple_command` IDLE bracketing

Embedding of `IMAPManager._simple_command` (imap.py lines 280-350) as the
trace of events it puts on the wire on its non-exceptional path.  `done()`
sends `DONE` and blocks in `_wait_response(WaitResponse.DONE)`; `idle()`
sends `IDLE` and blocks in `_wait_response(WaitResponse.IDLE)`. -/

inductive WireEvent where
  | sendDone
  | awaitDoneAck
  | runCommand (name : String)
  | sendIdle
  | awaitIdleAck
deriving DecidableEq

/-- Trace of `_simple_command(name)` when the session's `_is_idle` flag is
`is_idle`.  The `DONE` command is dispatched directly; otherwise the session
leaves IDLE first when it was idling (`done()`), runs the command, and —
except after `LOGOUT` — restores IDLE (`idle()`). -/
def simple_command_trace (name : String) (is_idle : Bool) : List WireEvent :=
  if name = "DONE" then
    [WireEvent.runCommand name]
  else
    (if is_idle then [WireEvent.sendDone, WireEvent.awaitDoneAck] else [])
    ++ [WireEvent.runCommand name]
    ++ (if name = "LOGOUT" then []
        else if is_idle then [WireEvent.sendIdle, WireEvent.awaitIdleAck]
        else [])

/-! ### C9 — `IDLE_TIMEOUT` and the idle-keeper refresh condition -/

/-- Constant `IDLE_TIMEOUT = 30 * 60  # 30 minutes` (imap.py line 89),
in seconds. -/
def IDLE_TIMEOUT : Nat := 30 * 60

/-- Refresh condition of the idle-keeper thread `_idle` (imap.py line 520):
`time.time() - self._current_idle_start_time > IDLE_TIMEOUT`, with elapsed
time in whole seconds. -/
def idle_refresh_due (elapsed : Nat) : Bool := IDLE_TIMEOUT < elapsed

/-! ### C7 — attachment size gate in `SMTPManager.send_email` -/

/-- Constant `MAX_ATTACHMENT_SIZE = 25 * 1024 * 1024` (smtp.py line 39). -/
def MAX_ATTACHMENT_SIZE : Nat := 25 * 1024 * 1024

inductive SmtpEvent where
  | attachFile (size : Nat)
  | sendmail
deriving DecidableEq

/-- Attachment loop of `send_email` (smtp.py lines 195-204): each attachment
is size-checked and then attached; an oversized attachment raises
`SMTPManagerException` immediately. -/
def attach_files : List Nat → Except String (List SmtpEvent)
  | [] => .ok []
  | size :: rest =>
    if size > MAX_ATTACHMENT_SIZE then
      .error "Attachment size is too large."
    else
      (fun evs => SmtpEvent.attachFile size :: evs) <$> attach_files rest

/-- Distillation of `SMTPManager.send_email` to the attachment-size gate:
the message assembly is abstracted away and an email is represented by the
list of its attachment sizes in bytes.  `sendmail` is invoked only after
the whole attachment loop has succeeded, so it appears only in the `.ok`
trace. -/
def send_email (attachment_sizes : List Nat) : Except String (List SmtpEvent) :=
  (attach_files attachment_sizes).map (fun evs => evs ++ [SmtpEvent.sendmail])

/-! ### C8 — folder-name validator `_check_folder_names` -/

/-- Constant `MAX_FOLDER_NAME_LENGTH = 1024` (imap.py line 87). -/
def MAX_FOLDER_NAME_LENGTH : Nat := 1024

/-- Embedding of `_check_folder_names` (imap.py lines 777-815).  A list
element is `none` when the Python caller passes `None` (as `create_folder`
does for an absent parent folder).  Note the loop body: a falsy
`folder_name` (`None` or the empty string) is skipped by the
`if not folder_name: continue` guard before the emptiness check below it
can run. -/
def _check_folder_names (folders : List (Option String)) (raise_error : Bool) :
    Except String Bool :=
  match folders with
  | [] => .ok true
  | none :: rest => _check_folder_names rest raise_error
  | some folder_name :: rest =>
    if folder_name = "" then _check_folder_names rest raise_error
    else if folder_name.length > MAX_FOLDER_NAME_LENGTH ∨ folder_name.length < 1 then
      if raise_error then .error "Invalid folder name" else .ok false
    else _check_folder_names rest raise_error

/-! ### C6 / C10 — the `search_emails` cache and `get_emails` paging -/

/-- Dataclass `IMAPManager.SearchedEmails`. -/
structure SearchedEmails where
  uids : List String
  folder : String
  search_query : String
deriving DecidableEq

/-- Embedding of the tail of `search_emails` (imap.py lines 1091-1096):
given the decoded data of a successful `UID SEARCH` (a space-separated UID
list), an empty response yields `(False, "No emails found.")` and leaves the
cache unchanged; otherwise the split UID list is reversed
(`uids[0].decode().split()[::-1]`) and stored. -/
def search_emails_store (prev : Option SearchedEmails) (folder : String)
    (search_query : String) (response : String) :
    Option SearchedEmails × Bool :=
  if response = "" then (prev, false)
  else
    let uids := (pySplitWs response.toList).map (fun l => String.mk l)
    (some { uids := uids.reverse, folder := folder, search_query := search_query },
     true)

/-- Numeric value of a UID string (`0` for a malformed one), used only to
state sortedness of UID lists. -/
def uidVal (s : String) : Nat := (pyInt s.toList).getD 0

/-- The list is sorted strictly descending by numeric UID. -/
def sortedDescNum : List String → Bool
  | a :: b :: rest => decide (uidVal b < uidVal a) && sortedDescNum (b :: rest)
  | _ => true

/-- The list is sorted strictly ascending by numeric UID. -/
def sortedAscNum : List String → Bool
  | a :: b :: rest => decide (uidVal a < uidVal b) && sortedAscNum (b :: rest)
  | _ => true

/-- Slice arithmetic of `get_emails` (imap.py lines 1185-1188):

```
offset_start = (uids_len - 1 if offset_start >= uids_len else offset_start) - 1
offset_end   = uids_len if offset_end >= uids_len else offset_end
sequence_set = ",".join(map(str, uids[offset_start:offset_end][::-1]))
```

For `uids_len = 1` and `offset_start >= uids_len` the Python index is `-1`
and the slice `uids[-1:1]` equals `uids[0:1]`, which is what the truncated
Nat subtraction below also produces; no other reachable case is negative
(`offset_start ≥ 1` is enforced before this point). -/
def paged_slice (uids : List String) (offset_start offset_end : Nat) : List String :=
  let len := uids.length
  let aS := (if offset_start ≥ len then len - 1 else offset_start) - 1
  let aE := if offset_end ≥ len then len else offset_end
  ((uids.drop aS).take (aE - aS)).reverse

/-- Embedding of `get_emails` (imap.py lines 1140-1188) up to the point
where the page of cached UIDs to fetch has been determined; the result is
that page (newest-last, as fetched).  The guard order follows the source:
the no-search check precedes every use of the offsets. -/
def get_emails (searched : Option SearchedEmails) (offset_start offset_end : Int) :
    Except String (List String) :=
  match searched with
  | none => .error "No emails have been searched yet. Call search_emails first."
  | some se =>
    if se.uids = [] ∨ se.uids.head? = some "" then
      .error "No emails have been searched yet. Call search_emails first."
    else if offset_start ≠ 0 ∧ offset_end ≠ 0 ∧ offset_start > offset_end then
      .error "offset_start must be less then offset_end."
    else if offset_start ≠ 0 ∧ offset_start < 1 then
      .error "offset_start must be greater than or equal to 1."
    else if offset_end ≠ 0 ∧ offset_end < 1 then
      .error "offset_end must be greater than or equal to 1."
    else
      let oS : Int := if offset_start = 0 then 1 else offset_start
      let oE : Int := if offset_end = 0 then 10 else offset_end
      .ok (paged_slice se.uids oS.toNat oE.toNat)

/-! ### C3 — `delete_email`, `move_email` and a mailbox-state semantics -/

/-- IMAP commands that `move_email` / `delete_email` put on the wire. -/
inductive ImapCmd where
  | selectFolder (folder : String)
  | uidMove (sequence_set : String) (destination : String)
  | uidStore (sequence_set : String) (flag : String)
  | expunge
deriving DecidableEq

/-- Trace of `move_email` (imap.py lines 1617-1676), folder-name validation
aside.  When `source_folder == destination_folder` the source executes
`return IMAPCommandResult(success=True, ...)`; `IMAPCommandResult` is a
PEP 695 `type` alias (`type IMAPCommandResult = tuple[bool, str]`, imap.py
line 50) and is not callable, so this path raises `TypeError` before any
IMAP command is issued.  Otherwise the source folder is selected, `UID MOVE`
is issued and, on success, `EXPUNGE`. -/
def move_email (source_folder destination_folder sequence_set : String) :
    Except String (List ImapCmd) :=
  if source_folder = destination_folder then
    .error "TypeError: TypeAliasType object is not callable"
  else
    .ok [ImapCmd.selectFolder source_folder,
         ImapCmd.uidMove sequence_set destination_folder,
         ImapCmd.expunge]

/-- Trace of `delete_email` (imap.py lines 1733-1795).  `trash_mailbox_name`
is the folder name discovered by `find_matching_folder(Folder.Trash, False)`.
The guard is the source's
`if folder != trash_mailbox_name or folder != Folder.Trash:` with
`Folder.Trash = "Trash"`; an exception escaping `move_email` is wrapped into
an `IMAPManagerException` by the surrounding `try`.  After the move the
Trash folder is selected, `\Deleted` is stored on the same sequence set and
the mailbox is expunged. -/
def delete_email (trash_mailbox_name folder sequence_set : String) :
    Except String (List ImapCmd) :=
  (if folder ≠ trash_mailbox_name ∨ folder ≠ "Trash" then
     (move_email folder trash_mailbox_name sequence_set).mapError
       (fun e => "Error while moving emails to trash folder for deletion: " ++ e)
   else .ok []).map
    (fun pre => pre ++
      [ImapCmd.selectFolder trash_mailbox_name,
       ImapCmd.uidStore sequence_set "\\Deleted",
       ImapCmd.expunge])

/-- A message in a mailbox: its UID in the current folder, an immutable
message identity `mid`, and whether `\Deleted` is set. -/
structure Msg where
  uid : Nat
  mid : Nat
  del : Bool
deriving DecidableEq

/-- State of the two folders `delete_email` touches: the source folder and
the server's Trash folder, together with Trash's next free UID
(`UIDNEXT`).  A sequence set is interpreted by the predicate `sset` on
UIDs. -/
structure MailState where
  src : List Msg
  trash : List Msg
  trashNext : Nat
deriving DecidableEq

/-- UID MOVE renumbers the moved messages: each receives the next free UID
of the destination, in order. -/
def assignUids : Nat → List Msg → List Msg
  | _, [] => []
  | n, m :: ms => { m with uid := n } :: assignUids (n + 1) ms

/-- Semantics of `UID MOVE sset Trash` issued in the source folder: the
matching messages leave the source and are appended to Trash under fresh
UIDs (RFC 9051: the destination assigns new UIDs, reported via `COPYUID`). -/
def moveToTrash (sset : Nat → Bool) (st : MailState) : MailState :=
  let moved := st.src.filter (fun m => sset m.uid)
  { src := st.src.filter (fun m => !sset m.uid),
    trash := st.trash ++ assignUids st.trashNext moved,
    trashNext := st.trashNext + moved.length }

/-- Semantics of `EXPUNGE` in the source folder (issued by `move_email`
right after the move). -/
def expungeSrc (st : MailState) : MailState :=
  { st with src := st.src.filter (fun m => !m.del) }

/-- Semantics of `UID STORE sset +FLAGS \Deleted` issued in Trash. -/
def storeDeletedTrash (sset : Nat → Bool) (st : MailState) : MailState :=
  { st with trash := st.trash.map (fun m => if sset m.uid then { m with del := true } else m) }

/-- Semantics of `EXPUNGE` issued in Trash. -/
def expungeTrash (st : MailState) : MailState :=
  { st with trash := st.trash.filter (fun m => !m.del) }

/-- Mailbox-state semantics of the `folder ≠ Trash` branch of
`delete_email`: move the sequence set to Trash, expunge the source
(`move_email`), then flag `\Deleted` on the same sequence set in Trash and
expunge Trash. -/
def delete_email_sem (sset : Nat → Bool) (st : MailState) : MailState :=
  expungeTrash (storeDeletedTrash sset (expungeSrc (moveToTrash sset st)))

/-! ### C5 — the search-query builder -/

/-- Nested-OR builder `recursive_or_query` (imap.py lines 901-925): a single
key yields `criteria "key"`, otherwise the key list is split at its midpoint
`len // 2` and the two halves are combined with `OR (left) (right)`.
The source recurses forever on an empty list; its only caller guards with
`len(value) > 1`, and the empty case is mapped to `""` here. -/
def recursive_or_query (criteria : String) (search_keys : List String) : String :=
  match search_keys with
  | [] => ""
  | [k] => criteria ++ " \"" ++ k ++ "\""
  | k₁ :: k₂ :: rest =>
    let ks := k₁ :: k₂ :: rest
    let mid := ks.length / 2
    "OR (" ++ recursive_or_query criteria (ks.take mid) ++ ") ("
      ++ recursive_or_query criteria (ks.drop mid) ++ ")"
  termination_by search_keys.length
  decreasing_by
  · simp [List.length_take]
    omega
  · simp
    omega

/-- Values `add_criterion` receives: a string, an int, or a string list. -/
inductive CVal where
  | str (s : String)
  | int (n : Int)
  | list (xs : List String)

/-- Python truthiness of a `CVal` (`if not value`). -/
def CVal.falsy : CVal → Bool
  | .str s => s = ""
  | .int n => n = 0
  | .list xs => xs = []

/-- Modelled from the spec: `add_quotes_if_str` is imported from the
server-side `.utils` module, which is not under `src/`; per the spec
(§3 invariant (iv), values are transported wrapped in double quotes) it
wraps a string value in double quotes and leaves other values alone.  In
`add_criterion` it is only ever reached with a string value. -/
def add_quotes_if_str (s : String) : String := "\"" ++ s ++ "\""

/-- Helper `add_criterion` of `build_search_criteria_query` (imap.py lines
927-967), on its non-exceptional paths.  `seperate_with_or` mirrors the
source's spelling. -/
def add_criterion (criteria : String) (value : CVal) (seperate_with_or : Bool) :
    String :=
  if value.falsy then ""
  else
    match value with
    | .int n =>
      -- `value = str(value)`, then the final branch quotes it.
      if criteria ≠ "" then
        " (" ++ String.mk (pyStrip criteria.toList) ++ " "
          ++ add_quotes_if_str (toString n) ++ ")"
      else " (" ++ String.mk (pyStrip (toString n).toList) ++ ")"
    | .list xs =>
      if criteria = "" then
        -- flag list: `' '.join(i.strip().upper() for i in value)`
        " " ++ String.intercalate " "
          (xs.map (fun i => (String.mk (pyStrip i.toList)).toUpper))
      else if xs.length ≤ 1 then
        " (" ++ String.mk (pyStrip criteria.toList) ++ " \""
          ++ String.mk (pyStrip (xs.headD "").toList) ++ "\")"
      else if seperate_with_or then
        -- `value = recursive_or_query(criteria, value); criteria = ''`
        " (" ++ String.mk (pyStrip (recursive_or_query criteria xs).toList) ++ ")"
      else
        -- unreachable from `build_search_criteria_query` (every list call
        -- passes `seperate_with_or = len(value) > 1`); the source would
        -- interpolate Python's repr of the list here.
        " (" ++ String.mk (pyStrip criteria.toList) ++ " " ++ toString xs ++ ")"
    | .str s =>
      if criteria ≠ "" then
        " (" ++ String.mk (pyStrip criteria.toList) ++ " "
          ++ add_quotes_if_str s ++ ")"
      else " (" ++ String.mk (pyStrip s.toList) ++ ")"

/-- The `SearchCriteria` dataclass (types.py lines 10-30), with the fields
`build_search_criteria_query` reads.  Flags are plain strings
(`Mark` values are strings too). -/
structure SearchCriteria where
  senders : List String := []
  receivers : List String := []
  cc : List String := []
  bcc : List String := []
  subject : String := ""
  since : String := ""
  before : String := ""
  smaller_than : Int := 0
  larger_than : Int := 0
  -- the source field is `include`, which is a Lean keyword
  include_ : String := ""
  exclude : String := ""
  included_flags : List String := []
  excluded_flags : List String := []
  has_attachments : Bool := false

/-- Modelled from the spec: `extract_email_addresses` is imported from the
server-side `.utils` module, which is not under `src/`.  The spec treats
the `senders`/`receivers`/`cc`/`bcc` fields directly as lists of address
values (§3, §4.3), so it is modelled as the identity on the list. -/
def extract_email_addresses (addresses : List String) : List String := addresses

/-- The flag-list construction of `build_search_criteria_query` (imap.py
lines 973-991): a known mark loses its backslash, an unknown flag becomes
`KEYWORD x` / `UNKEYWORD x`, and an excluded known mark has its backslash
replaced by `UN` unless it already starts with `\un`. -/
def MARK_LIST : List String :=
  ["\\flagged", "\\seen", "\\answered", "\\draft", "\\deleted",
   "\\unflagged", "\\unseen", "\\unanswered", "\\undraft", "\\undeleted"]

def build_flag_list (included excluded : List String) : List String :=
  included.map (fun flag =>
    if flag.toLower ∉ MARK_LIST then "KEYWORD " ++ flag
    else flag.replace "\\" "")
  ++ excluded.map (fun flag =>
    if flag.toLower ∉ MARK_LIST then "UNKEYWORD " ++ flag
    else flag.replace "\\" (if flag.toLower.startsWith "\\un" then "" else "UN"))

/-- The criteria of `build_search_criteria_query` that follow the `FROM`
criterion (imap.py lines 999-1022), in source order. -/
def rest_search_criteria_query (sc : SearchCriteria) : String :=
  add_criterion "TO" (CVal.list (extract_email_addresses sc.receivers))
    (sc.receivers.length > 1)
  ++ add_criterion "CC" (CVal.list (extract_email_addresses sc.cc))
    (sc.cc.length > 1)
  ++ add_criterion "BCC" (CVal.list (extract_email_addresses sc.bcc))
    (sc.bcc.length > 1)
  ++ add_criterion "SUBJECT" (CVal.str sc.subject) false
  ++ add_criterion "SINCE" (CVal.str sc.since) false
  ++ add_criterion "BEFORE" (CVal.str sc.before) false
  ++ add_criterion "BODY" (CVal.str sc.include_) false
  ++ add_criterion "NOT BODY" (CVal.str sc.exclude) false
  ++ add_criterion "" (CVal.list (build_flag_list sc.included_flags sc.excluded_flags)) false
  ++ add_criterion "TEXT" (CVal.str (if sc.has_attachments then "ATTACHMENT" else "")) false
  ++ add_criterion "LARGER" (CVal.int sc.larger_than) false
  ++ add_criterion "SMALLER" (CVal.int sc.smaller_than) false

/-- Embedding of `build_search_criteria_query` (imap.py lines 864-1026) on a
`SearchCriteria` value: the concatenation of the criteria in source order —
the `FROM` criterion first, then the rest — finally `strip()`-ed. -/
def build_search_criteria_query (sc : SearchCriteria) : String :=
  String.mk (pyStrip (String.toList (
    add_criterion "FROM" (CVal.list (extract_email_addresses sc.senders))
      (sc.senders.length > 1)
    ++ rest_search_criteria_query sc)))

/-- Binary OR tree used to state the shape facts of `recursive_or_query`. -/
inductive OrTree where
  | leaf (key : String)
  | node (l r : OrTree)

/-- The tree `recursive_or_query` implicitly builds: split at `len // 2`. -/
def buildOrTree : List String → OrTree
  | [] => OrTree.leaf ""
  | [k] => OrTree.leaf k
  | k₁ :: k₂ :: rest =>
    let ks := k₁ :: k₂ :: rest
    let mid := ks.length / 2
    OrTree.node (buildOrTree (ks.take mid)) (buildOrTree (ks.drop mid))
  termination_by ks => ks.length
  decreasing_by
  · simp [List.length_take]
    omega
  · simp
    omega

/-- Leaves of an OR tree, in order. -/
def OrTree.leaves : OrTree → List String
  | .leaf k => [k]
  | .node l r => l.leaves ++ r.leaves

/-- Rendering an OR tree the way `recursive_or_query` prints it. -/
def OrTree.render (criteria : String) : OrTree → String
  | .leaf k => criteria ++ " \"" ++ k ++ "\""
  | .node l r => "OR (" ++ l.render criteria ++ ") (" ++ r.render criteria ++ ")"

/-- Size balance: at every internal node the leaf counts of the two
subtrees differ by at most one. -/
def OrTree.balanced : OrTree → Prop
  | .leaf _ => True
  | .node l r =>
    (l.leaves.length = r.leaves.length ∨
     l.leaves.length + 1 = r.leaves.length ∨
     r.leaves.length + 1 = l.leaves.length)
    ∧ l.balanced ∧ r.balanced

/-- Internal (`OR`) node count of an OR tree. -/
def OrTree.orCount : OrTree → Nat
  | .leaf _ => 0
  | .node l r => l.orCount + r.orCount + 1

/-! #### Quote-aware `OR`-token counting

`OR` tokens of a query string are counted by a small scanner that treats
double-quoted stretches as opaque and recognises `OR` as a standalone word
between delimiters (space or parentheses).  This is the tokenisation an
RFC 9051 server applies to a search program: quoted strings are single
tokens, so an `OR` inside a quoted value is not an `OR` token. -/

inductive TokSt where
  | inQuote
  | word
  | bound
  | sawO
  | sawOR
deriving DecidableEq

def isDelim (c : Char) : Bool := c = ' ' ∨ c = '(' ∨ c = ')'

/-- One scanner step: next state and how many `OR` tokens were completed. -/
def tokStep : TokSt → Char → TokSt × Nat
  | .inQuote, c => if c = '"' then (.word, 0) else (.inQuote, 0)
  | .word, c =>
    if c = '"' then (.inQuote, 0) else if isDelim c then (.bound, 0) else (.word, 0)
  | .bound, c =>
    if c = '"' then (.inQuote, 0)
    else if isDelim c then (.bound, 0)
    else if c = 'O' then (.sawO, 0)
    else (.word, 0)
  | .sawO, c =>
    if c = '"' then (.inQuote, 0)
    else if isDelim c then (.bound, 0)
    else if c = 'R' then (.sawOR, 0)
    else (.word, 0)
  | .sawOR, c =>
    if c = '"' then (.inQuote, 1)
    else if isDelim c then (.bound, 1)
    else (.word, 0)

/-- Run the scanner over a character list. -/
def tokScan (st : TokSt) : List Char → TokSt × Nat
  | [] => (st, 0)
  | c :: rest =>
    let s := tokStep st c
    let r := tokScan s.1 rest
    (r.1, s.2 + r.2)

/-- Number of standalone `OR` tokens (outside quoted strings) in a string. -/
def orTokenCount (s : String) : Nat :=
  let r := tokScan TokSt.bound s.toList
  r.2 + (if r.1 = TokSt.sawOR then 1 else 0)

/-! ### C2 — the sequence-set validator `_is_sequence_set_valid`

The regex (imap.py lines 65-71, `re.VERBOSE`):

```
^(
    (\d+(,|:))*\d+$ |
    \*:((\d+(,|:))*\d+)?$ |
    ((\d+(,|:))*\d+:)?\*$
)$
```

The first alternative is a non-empty chain of digit runs separated by
single `,` or `:` characters; it is matched here by splitting at every
separator and requiring every part to be a non-empty digit run.  Digits are
modelled as ASCII digits (Python's `\d` and `int` additionally accept
non-ASCII decimal digits, which never appear in the strings this code
receives). -/

/-- Split at every `,` or `:`, keeping empty parts. -/
def splitSeps : List Char → List (List Char)
  | [] => [[]]
  | c :: rest =>
    let r := splitSeps rest
    if c = ',' ∨ c = ':' then [] :: r
    else match r with
      | [] => [[c]]
      | h :: t => (c :: h) :: t

/-- Matcher for `(\d+(,|:))*\d+` (anchored): every separated part is a
non-empty digit run. -/
def seqChain (l : List Char) : Bool :=
  (splitSeps l).all (fun p => p ≠ [] ∧ p.all isAsciiDigit)

/-- Matcher for `\*:((\d+(,|:))*\d+)?` (anchored). -/
def seqStarColon (l : List Char) : Bool :=
  match l with
  | '*' :: ':' :: rest => rest.isEmpty || seqChain rest
  | _ => false

/-- Matcher for `((\d+(,|:))*\d+:)?\*` (anchored). -/
def seqColonStar (l : List Char) : Bool :=
  match l.getLast? with
  | some '*' =>
    let p := l.dropLast
    p.isEmpty ||
      (match p.getLast? with
       | some ':' => seqChain p.dropLast
       | _ => false)
  | _ => false

def seqPatternCore (l : List Char) : Bool :=
  seqChain l || seqStarColon l || seqColonStar l

/-- `SEQUENCE_SET_PATTERN.match(s)`: the pattern is fully anchored, but a
Python `$` also matches just before a single trailing newline. -/
def seqPatternMatch (l : List Char) : Bool :=
  seqPatternCore l ||
    (match l.getLast? with
     | some '\n' => seqPatternCore l.dropLast
     | _ => false)

/-- Expansion of one comma-separated segment, following the loop body of
`_is_sequence_set_valid` (imap.py lines 445-463): a segment with a colon
takes its first and last colon-separated parts as bounds (`*` becomes
`int(max_uid)`), and contributes `range(start, end + 1)` plus
`max(start, end)`, all rendered back to strings by `map(str, ...)`;
a plain segment contributes itself (or `max_uid` for `*`) as a raw string.
`none` models a `ValueError` escaping from `int(...)`. -/
def expandSegment (max_uid : List Char) (segment : List Char) : Option (List (List Char)) :=
  if segment.contains ':' then
    match (if (pySplitChar ':' segment).headD [] = ['*'] then pyInt max_uid
           else pyInt ((pySplitChar ':' segment).headD [])) with
    | none => none
    | some start =>
      match (if (pySplitChar ':' segment).getLastD [] = ['*'] then pyInt max_uid
             else pyInt ((pySplitChar ':' segment).getLastD [])) with
      | none => none
      | some stop =>
        some ((List.range' start (stop + 1 - start)).map natToStr
          ++ [natToStr (max start stop)])
  else
    if segment = ['*'] then some [max_uid] else some [segment]

def expandAll (max_uid : List Char) : List (List Char) → Option (List (List Char))
  | [] => some []
  | seg :: rest =>
    match expandSegment max_uid seg with
    | none => none
    | some e =>
      match expandAll max_uid rest with
      | none => none
      | some r => some (e ++ r)

/-- Embedding of `_is_sequence_set_valid` (imap.py lines 414-469).
`none` models an uncaught exception (`IndexError` on an empty `uids`, or
`ValueError` from `int()`); `some b` is a normal return. -/
def _is_sequence_set_valid (sequence_set : String) (uids : List String) : Option Bool :=
  if ¬ seqPatternMatch sequence_set.toList then some false
  else
    match uids.getLast? with
    | none => none
    | some last =>
      match expandAll last.toList (pySplitChar ',' sequence_set.toList) with
      | none => none
      | some expanded =>
        some (expanded.all (fun u => uids.contains (String.mk u)))

/-! #### The RFC 9051 sequence-set grammar, written from the claim

`sequence-set = (seq-number / seq-range) *("," (seq-number / seq-range))`,
`seq-range = seq-number ":" seq-number`, `seq-number = nz-number / "*"`,
`nz-number = digit-nz *DIGIT` (no leading zero). -/

inductive SeqNum where
  | num (n : Nat)
  | star
deriving DecidableEq

def parseSeqNum (l : List Char) : Option SeqNum :=
  if l = ['*'] then some SeqNum.star
  else if l ≠ [] ∧ l.all isAsciiDigit ∧ l.head? ≠ some '0' then
    (pyInt l).map SeqNum.num
  else none

inductive RfcItem where
  | single (a : SeqNum)
  | range (a b : SeqNum)
deriving DecidableEq

def parseRfcItem (seg : List Char) : Option RfcItem :=
  match pySplitChar ':' seg with
  | [one] => (parseSeqNum one).map RfcItem.single
  | [a, b] =>
    match parseSeqNum a with
    | none => none
    | some sa =>
      match parseSeqNum b with
      | none => none
      | some sb => some (RfcItem.range sa sb)
  | _ => none

def parseRfcItems : List (List Char) → Option (List RfcItem)
  | [] => some []
  | seg :: rest =>
    match parseRfcItem seg with
    | none => none
    | some it =>
      match parseRfcItems rest with
      | none => none
      | some its => some (it :: its)

/-- S matches the RFC 9051 sequence-set grammar iff this returns `some`. -/
def rfcSequenceSet (s : String) : Option (List RfcItem) :=
  parseRfcItems (pySplitChar ',' s.toList)

/-- Wildcard resolution: `*` denotes `M`, the largest UID. -/
def SeqNum.resolve (M : Nat) : SeqNum → Nat
  | .num n => n
  | .star => M

/-- RFC expansion of one item (a range covers both orders). -/
def RfcItem.expand (M : Nat) : RfcItem → List Nat
  | .single a => [a.resolve M]
  | .range a b =>
    let x := a.resolve M
    let y := b.resolve M
    List.range' (min x y) (max x y + 1 - min x y)

def rfcExpand (M : Nat) (items : List RfcItem) : List Nat :=
  (items.map (RfcItem.expand M)).flatten

/-- A range item is ascending once wildcards are resolved against `M`. -/
def RfcItem.asc (M : Nat) : RfcItem → Prop
  | .single _ => True
  | .range a b => a.resolve M ≤ b.resolve M

instance (M : Nat) (it : RfcItem) : Decidable (it.asc M) :=
  match it with
  | .single _ => isTrue trivial
  | .range a b => inferInstanceAs (Decidable (a.resolve M ≤ b.resolve M))

/-! ### C4 — the modified UTF-7 folder-name codec

Embedding of `decode_modified_utf7` / `encode_modified_utf7`
(python_scripts/openmail/utils.py lines 3-30).  A Python `str` is a
sequence of Unicode code points, modelled as `List Nat`; `none` models an
uncaught `UnicodeEncodeError` / `UnicodeDecodeError` / `binascii.Error`. -/

/-- The standard base64 alphabet as code points (`A-Z`, `a-z`, `0-9`,
`+`, `/`). -/
def b64Alphabet : List Nat :=
  (List.range 26).map (fun i => 65 + i) ++ (List.range 26).map (fun i => 97 + i)
  ++ (List.range 10).map (fun i => 48 + i) ++ [43, 47]

def b64Char (i : Nat) : Nat := b64Alphabet.getD i 0

def b64Index (c : Nat) : Option Nat := b64Alphabet.findIdx? (fun x => x = c)

/-- `base64.b64encode` with the trailing `=` padding already stripped
(the source applies `.rstrip('=')`). -/
def b64encodeStripped : List Nat → List Nat
  | a :: b :: c :: rest =>
    b64Char (a / 4) :: b64Char (a % 4 * 16 + b / 16)
      :: b64Char (b % 16 * 4 + c / 64) :: b64Char (c % 64)
      :: b64encodeStripped rest
  | [a, b] => [b64Char (a / 4), b64Char (a % 4 * 16 + b / 16), b64Char (b % 16 * 4)]
  | [a] => [b64Char (a / 4), b64Char (a % 4 * 16)]
  | [] => []

/-- Decoding of a stripped base64 index sequence: four indices give three
bytes; a final pair or triple gives one or two bytes (the low filler bits
are ignored, as `binascii` does); a single leftover index is an error. -/
def b64decodeGroups : List Nat → Option (List Nat)
  | i1 :: i2 :: i3 :: i4 :: rest =>
    match b64decodeGroups rest with
    | none => none
    | some r =>
      some ((i1 * 4 + i2 / 16) :: (i2 % 16 * 16 + i3 / 4) :: (i3 % 4 * 64 + i4) :: r)
  | [i1, i2, i3] => some [i1 * 4 + i2 / 16, i2 % 16 * 16 + i3 / 4]
  | [i1, i2] => some [i1 * 4 + i2 / 16]
  | [_] => none
  | [] => some []

/-- `base64.b64decode(content + '===')` with the default `validate=False`:
data stops at the first `=` and characters outside the alphabet are
discarded; the appended `===` only ever completes the final group. -/
def b64decodeLenient (content : List Nat) : Option (List Nat) :=
  b64decodeGroups ((content.takeWhile (fun c => c ≠ 61)).filterMap b64Index)

/-- UTF-16 big-endian encoding of one code point; surrogate code points
raise `UnicodeEncodeError` in Python (`none` here). -/
def utf16beEncodeChar (c : Nat) : Option (List Nat) :=
  if 0xD800 ≤ c ∧ c < 0xE000 then none
  else if c < 0x10000 then some [c / 256, c % 256]
  else
    let cp := c - 0x10000
    let hi := 0xD800 + cp / 1024
    let lo := 0xDC00 + cp % 1024
    some [hi / 256, hi % 256, lo / 256, lo % 256]

def utf16beEncode : List Nat → Option (List Nat)
  | [] => some []
  | c :: rest =>
    match utf16beEncodeChar c with
    | none => none
    | some bs =>
      match utf16beEncode rest with
      | none => none
      | some tail => some (bs ++ tail)

/-- Split off one big-endian 16-bit unit. -/
def split2 : List Nat → Option (Nat × Nat × List Nat)
  | b0 :: b1 :: rest => some (b0, b1, rest)
  | _ => none

/-- Structural fuel (one unit of fuel per code unit, `l.length` always
suffices) so that the decoder reduces in the kernel. -/
def utf16beDecodeAux : Nat → List Nat → Option (List Nat)
  | _, [] => some []
  | 0, _ :: _ => none
  | _ + 1, [_] => none
  | fuel + 1, b0 :: b1 :: rest =>
    if b0 * 256 + b1 < 0xD800 ∨ 0xE000 ≤ b0 * 256 + b1 then
      match utf16beDecodeAux fuel rest with
      | none => none
      | some t => some ((b0 * 256 + b1) :: t)
    else if b0 * 256 + b1 < 0xDC00 then
      match split2 rest with
      | none => none
      | some (b2, b3, rest2) =>
        if 0xDC00 ≤ b2 * 256 + b3 ∧ b2 * 256 + b3 < 0xE000 then
          match utf16beDecodeAux fuel rest2 with
          | none => none
          | some t =>
            some ((0x10000 + (b0 * 256 + b1 - 0xD800) * 1024
              + (b2 * 256 + b3 - 0xDC00)) :: t)
        else none
    else none

/-- UTF-16 big-endian decoding; odd lengths and unpaired surrogates raise
`UnicodeDecodeError` in Python (`none` here). -/
def utf16beDecode (l : List Nat) : Option (List Nat) := utf16beDecodeAux l.length l

/-- Inner `modified_base64_encode`: UTF-16-BE bytes, base64 without
padding, `/` replaced by `,`. -/
def modified_base64_encode (run : List Nat) : Option (List Nat) :=
  (utf16beEncode run).map
    (fun bytes => (b64encodeStripped bytes).map (fun c => if c = 47 then 44 else c))

/-- Inner `modified_base64_decode`: `,` back to `/`, lenient base64 decode,
UTF-16-BE decode. -/
def modified_base64_decode (content : List Nat) : Option (List Nat) :=
  match b64decodeLenient (content.map (fun c => if c = 44 then 47 else c)) with
  | none => none
  | some bytes => utf16beDecode bytes

/-- Embedding of `encode_modified_utf7`: maximal runs of code points above
127 become `&` + modified base64 + `-`; runs of code points at or below
127 — including `&` itself — pass through unchanged. -/
def encode_modified_utf7 : List Nat → Option (List Nat)
  | [] => some []
  | c :: rest =>
    if 127 < c then
      match modified_base64_encode (c :: rest.takeWhile (fun x => 127 < x)) with
      | none => none
      | some enc =>
        match encode_modified_utf7 (rest.dropWhile (fun x => 127 < x)) with
        | none => none
        | some tail => some (38 :: enc ++ 45 :: tail)
    else
      match encode_modified_utf7 (rest.dropWhile (fun x => ¬ 127 < x)) with
      | none => none
      | some tail => some (c :: rest.takeWhile (fun x => ¬ 127 < x) ++ tail)
  termination_by l => l.length
  decreasing_by
  · simp
    exact Nat.lt_succ_of_le (List.dropWhile_sublist _).length_le
  · simp
    exact Nat.lt_succ_of_le (List.dropWhile_sublist _).length_le

/-- Embedding of `decode_modified_utf7`:
`re.sub(r'&([^-]*)-', ...)` scans left to right; at a `&` the group runs to
the first `-` (an empty group yields a literal `&`, otherwise the group is
modified-base64-decoded); a `&` with no later `-` cannot start a match —
and then no later position can either, since every match needs a `-`. -/
def decode_modified_utf7 : List Nat → Option (List Nat)
  | [] => some []
  | c :: rest =>
    if c = 38 then
      if rest.contains 45 then
        -- a '-' exists after this '&': the group is everything before it
        if rest.takeWhile (fun x => x ≠ 45) = [] then
          match decode_modified_utf7 ((rest.dropWhile (fun x => x ≠ 45)).tail) with
          | none => none
          | some t => some (38 :: t)
        else
          match modified_base64_decode (rest.takeWhile (fun x => x ≠ 45)) with
          | none => none
          | some dec =>
            match decode_modified_utf7 ((rest.dropWhile (fun x => x ≠ 45)).tail) with
            | none => none
            | some tail => some (dec ++ tail)
      else some (c :: rest)
    else
      match decode_modified_utf7 rest with
      | none => none
      | some t => some (c :: t)
  termination_by l => l.length
  decreasing_by
  all_goals
    have hle := (List.dropWhile_sublist (l := rest) (p := fun x => decide (x ≠ 45))).length_le
    have htl := List.length_tail (rest.dropWhile (fun x => decide (x ≠ 45)))
    simp only [List.length_cons]
    omega

/-- A code point is a Unicode scalar value (what a Python `str` holds,
lone surrogates aside). -/
def isScalar (c : Nat) : Prop := c < 0x110000 ∧ ¬ (0xD800 ≤ c ∧ c < 0xE000)

/-! ## Theorems -/

/-- C1: for every foreground command whose name is not `DONE` dispatched
through `_simple_command` while the session is idling, the session first
sends `DONE` and awaits its acknowledgement, then runs the command, then
re-issues `IDLE`; after a `LOGOUT` command IDLE is not restored, and for
commands dispatched while not idling neither `DONE` nor `IDLE` is sent. -/
theorem simple_command_idle_bracketing (name : String) (hname : name ≠ "DONE")
    (is_idle : Bool) :
    (is_idle = true → name ≠ "LOGOUT" →
      simple_command_trace name is_idle =
        [WireEvent.sendDone, WireEvent.awaitDoneAck, WireEvent.runCommand name,
         WireEvent.sendIdle, WireEvent.awaitIdleAck]) ∧
    (is_idle = true → name = "LOGOUT" →
      simple_command_trace name is_idle =
        [WireEvent.sendDone, WireEvent.awaitDoneAck, WireEvent.runCommand name]) ∧
    (is_idle = false →
      simple_command_trace name is_idle = [WireEvent.runCommand name] ∧
      WireEvent.sendDone ∉ simple_command_trace name is_idle ∧
      WireEvent.sendIdle ∉ simple_command_trace name is_idle) := by
  refine ⟨?_, ?_, ?_⟩
  · intro hi hl
    simp [simple_command_trace, hname, hi, hl]
  · intro hi hl
    simp [simple_command_trace, hname, hi, hl]
  · intro hi
    subst hi
    simp [simple_command_trace, hname]

/-- Witness for `simple_command_idle_bracketing` at the command `NOOP`. -/
theorem simple_command_idle_bracketing_witness :
    simple_command_trace "NOOP" true =
      [WireEvent.sendDone, WireEvent.awaitDoneAck, WireEvent.runCommand "NOOP",
       WireEvent.sendIdle, WireEvent.awaitIdleAck] ∧
    simple_command_trace "LOGOUT" true =
      [WireEvent.sendDone, WireEvent.awaitDoneAck, WireEvent.runCommand "LOGOUT"] ∧
    simple_command_trace "NOOP" false = [WireEvent.runCommand "NOOP"] :=
  ⟨(simple_command_idle_bracketing "NOOP" (by decide) true).1 rfl (by decide),
   (simple_command_idle_bracketing "LOGOUT" (by decide) true).2.1 rfl rfl,
   ((simple_command_idle_bracketing "NOOP" (by decide) false).2.2 rfl).1⟩

/-- C9, counterexample: `IDLE_TIMEOUT` is 1800 seconds — exactly 30
minutes, not approximately 29 minutes, and not strictly less than 30
minutes. -/
theorem idle_timeout_counterexample :
    IDLE_TIMEOUT = 1800 ∧ ¬ IDLE_TIMEOUT < 30 * 60 ∧ IDLE_TIMEOUT ≠ 29 * 60 := by
  refine ⟨rfl, ?_, ?_⟩ <;> decide

/-- C9, amended: `IDLE_TIMEOUT` equals exactly 30 minutes, and the
idle-keeper loop issues its `DONE`/`IDLE` refresh only once the elapsed
idle time strictly exceeds 30 minutes. -/
theorem idle_timeout_thirty_minutes :
    IDLE_TIMEOUT = 30 * 60 ∧
    ∀ elapsed : Nat, idle_refresh_due elapsed = true ↔ 30 * 60 < elapsed := by
  refine ⟨rfl, fun elapsed => ?_⟩
  simp [idle_refresh_due, IDLE_TIMEOUT]

/-- C7: `send_email` raises (and never reaches `sendmail`) whenever some
attachment exceeds 25 MiB, and performs no size rejection when every
attachment is at most 25 MiB. -/
theorem send_email_attachment_size_gate (sizes : List Nat) :
    ((∃ a ∈ sizes, MAX_ATTACHMENT_SIZE < a) →
      send_email sizes = .error "Attachment size is too large.") ∧
    ((∀ a ∈ sizes, a ≤ MAX_ATTACHMENT_SIZE) →
      send_email sizes = .ok (sizes.map SmtpEvent.attachFile ++ [SmtpEvent.sendmail])) := by
  have herr : ∀ l : List Nat, (∃ a ∈ l, MAX_ATTACHMENT_SIZE < a) →
      attach_files l = .error "Attachment size is too large." := by
    intro l
    induction l with
    | nil => rintro ⟨a, ha, _⟩; cases ha
    | cons x t ih =>
      rintro ⟨a, ha, hgt⟩
      by_cases hx : MAX_ATTACHMENT_SIZE < x
      · simp [attach_files, hx]
      · rcases List.mem_cons.mp ha with ha | ha
        · exact absurd (ha ▸ hgt) hx
        · simp [attach_files, hx, ih ⟨a, ha, hgt⟩]
  have hok : ∀ l : List Nat, (∀ a ∈ l, a ≤ MAX_ATTACHMENT_SIZE) →
      attach_files l = .ok (l.map SmtpEvent.attachFile) := by
    intro l
    induction l with
    | nil => intro _; rfl
    | cons x t ih =>
      intro h
      have hx : ¬ MAX_ATTACHMENT_SIZE < x := by
        have := h x (by simp)
        omega
      simp only [attach_files, if_neg hx]
      rw [ih (fun a ha => h a (by simp [ha]))]
      rfl
  constructor
  · intro h
    unfold send_email
    rw [herr sizes h]
    rfl
  · intro h
    unfold send_email
    rw [hok sizes h]
    rfl

/-- Witness for `send_email_attachment_size_gate`: a 25 MiB + 1 byte
attachment is rejected before `sendmail`; a small one is sent. -/
theorem send_email_attachment_size_gate_witness :
    send_email [26214401] = .error "Attachment size is too large." ∧
    send_email [7] = .ok [SmtpEvent.attachFile 7, SmtpEvent.sendmail] :=
  ⟨(send_email_attachment_size_gate [26214401]).1 ⟨26214401, by decide, by decide⟩,
   (send_email_attachment_size_gate [7]).2 (by decide)⟩

/-- C8: the folder-name validator accepts the empty string — the
`if not folder_name: continue` guard skips it before the emptiness check
can raise — although both the claim and the function's own docstring
(`>>> self._check_folder_names("")` ... `raises IMAPManagerException`) say
it must raise; over-long names are rejected as documented. -/
theorem check_folder_names_empty_name_bug :
    _check_folder_names [some ""] true = .ok true ∧
    ∀ s : String, MAX_FOLDER_NAME_LENGTH < s.length →
      _check_folder_names [some s] true = .error "Invalid folder name" := by
  constructor
  · rfl
  · intro s hs
    have hne : ¬ s = "" := by
      intro h
      subst h
      simp [MAX_FOLDER_NAME_LENGTH] at hs
    unfold _check_folder_names
    rw [if_neg hne, if_pos (Or.inl hs), if_pos rfl]

/-- Witness for `check_folder_names_empty_name_bug` at a 1025-character
folder name. -/
theorem check_folder_names_empty_name_bug_witness :
    _check_folder_names [some (String.mk (List.replicate 1025 'x'))] true =
      .error "Invalid folder name" :=
  check_folder_names_empty_name_bug.2 (String.mk (List.replicate 1025 'x'))
    (by show (1024 : Nat) < (List.replicate 1025 'x').length
        rw [List.length_replicate]
        omega)

/-- C10: when no search result is cached (no `search_emails` has stored
one, or the stored UID list is empty) `get_emails` raises for every pair
of offsets instead of returning an empty `Mailbox`. -/
theorem get_emails_requires_search (searched : Option SearchedEmails)
    (h : searched = none ∨ ∃ se, searched = some se ∧ se.uids = [])
    (offset_start offset_end : Int) :
    get_emails searched offset_start offset_end =
      .error "No emails have been searched yet. Call search_emails first." := by
  rcases h with h | ⟨se, hse, hu⟩
  · subst h
    rfl
  · subst hse
    simp [get_emails, hu]

/-- Witness for `get_emails_requires_search` with an absent cache and with
an empty cached UID list, at sample offsets. -/
theorem get_emails_requires_search_witness :
    get_emails none 1 10 =
      .error "No emails have been searched yet. Call search_emails first." ∧
    get_emails (some ⟨[], "INBOX", "ALL"⟩) 3 7 =
      .error "No emails have been searched yet. Call search_emails first." :=
  ⟨get_emails_requires_search none (Or.inl rfl) 1 10,
   get_emails_requires_search (some ⟨[], "INBOX", "ALL"⟩)
     (Or.inr ⟨⟨[], "INBOX", "ALL"⟩, rfl, rfl⟩) 3 7⟩

/-- C6, counterexample: `search_emails` stores the reverse of the server's
response order, not a descending sort — on the (RFC-permitted) response
`3 1 2` the cache holds `["2", "1", "3"]`, which is not sorted descending
by numeric UID. -/
theorem search_emails_store_counterexample :
    search_emails_store none "INBOX" "ALL" "3 1 2" =
      (some ⟨["2", "1", "3"], "INBOX", "ALL"⟩, true) ∧
    sortedDescNum ["2", "1", "3"] = false := by
  constructor
  · rfl
  · decide

/-- C6, amended: after every successful `search_emails` the cached UID list
is the reverse of the server's response order (hence sorted descending by
numeric UID whenever the server lists the UIDs ascending, as servers do),
and `get_emails` pages by taking the contiguous 1-based slice
`offset_start..offset_end` of this cached list (reversed for fetching). -/
theorem search_store_reverse_and_paging :
    (∀ (prev : Option SearchedEmails) (folder q response : String), response ≠ "" →
      search_emails_store prev folder q response =
        (some ⟨((pySplitWs response.toList).map (fun l => String.mk l)).reverse,
               folder, q⟩,
         true)) ∧
    (∀ l : List String, sortedAscNum l = true → sortedDescNum l.reverse = true) ∧
    (∀ (uids : List String) (oS oE : Nat), 1 ≤ oS → oS ≤ oE →
      oS < uids.length → oE ≤ uids.length →
      paged_slice uids oS oE = ((uids.drop (oS - 1)).take (oE - oS + 1)).reverse) := by
  refine ⟨?_, ?_, ?_⟩
  · intro prev folder q response h
    simp [search_emails_store, h]
  · intro l h
    have hiff : ∀ m : List String,
        sortedDescNum m = true ↔ m.Chain' (fun a b => uidVal b < uidVal a) := by
      intro m
      induction m with
      | nil => simp [sortedDescNum]
      | cons a t ih =>
        cases t with
        | nil => simp [sortedDescNum]
        | cons b u =>
          rw [sortedDescNum, List.chain'_cons, Bool.and_eq_true, decide_eq_true_iff, ih]
    have hiff2 : ∀ m : List String,
        sortedAscNum m = true ↔ m.Chain' (fun a b => uidVal a < uidVal b) := by
      intro m
      induction m with
      | nil => simp [sortedAscNum]
      | cons a t ih =>
        cases t with
        | nil => simp [sortedAscNum]
        | cons b u =>
          rw [sortedAscNum, List.chain'_cons, Bool.and_eq_true, decide_eq_true_iff, ih]
    rw [hiff]
    exact List.chain'_reverse.mpr (by simpa [flip] using (hiff2 l).mp h)
  · intro uids oS oE h1 h2 h3 h4
    have hS : ¬ oS ≥ uids.length := by omega
    simp only [paged_slice, if_neg hS]
    by_cases h5 : oE ≥ uids.length
    · rw [if_pos h5]
      have he : uids.length - (oS - 1) = oE - oS + 1 := by omega
      rw [he]
    · rw [if_neg h5]
      have he : oE - (oS - 1) = oE - oS + 1 := by omega
      rw [he]

/-- Witness for `search_store_reverse_and_paging` at a concrete response,
a concrete ascending UID list, and concrete offsets. -/
theorem search_store_reverse_and_paging_witness :
    search_emails_store none "INBOX" "ALL" "1 2" =
      (some ⟨((pySplitWs "1 2".toList).map (fun l => String.mk l)).reverse,
             "INBOX", "ALL"⟩,
       true) ∧
    sortedDescNum (["1", "2"].reverse) = true ∧
    paged_slice ["9", "8", "7"] 1 2 =
      (((["9", "8", "7"] : List String).drop 0).take 2).reverse :=
  ⟨search_store_reverse_and_paging.1 none "INBOX" "ALL" "1 2" (by decide),
   search_store_reverse_and_paging.2.1 ["1", "2"] (by decide),
   search_store_reverse_and_paging.2.2 ["9", "8", "7"] 1 2 (by decide) (by decide)
     (by decide) (by decide)⟩

/-- C3, counterexample: when the folder argument already *is* the server's
Trash folder (here the localized `[Gmail]/Trash`), the claim says no move
is performed and the `\Deleted`+`EXPUNGE` sequence still runs; the code
instead enters `move_email` (its guard `folder != trash or folder !=
"Trash"` is true because the name differs from the literal `"Trash"`),
whose same-folder early return calls the non-callable PEP 695 alias
`IMAPCommandResult(...)` and raises, so `delete_email` fails. -/
theorem delete_email_trash_name_counterexample :
    delete_email "[Gmail]/Trash" "[Gmail]/Trash" "7" =
      .error ("Error while moving emails to trash folder for deletion: "
        ++ "TypeError: TypeAliasType object is not callable") := by
  have h : ("[Gmail]/Trash" : String) ≠ "Trash" := by decide
  simp [delete_email, move_email, h]
  rfl

/-- C3, amended: `delete_email(f, s)` issues a `UID MOVE` of `s` to the
server's Trash folder exactly when `f` differs from the Trash folder's
name, then selects Trash, stores `\Deleted` on `s` and expunges.  When `f`
equals the Trash name: if that name is the literal `"Trash"` no move is
issued and the flag-and-expunge sequence runs alone; otherwise
`delete_email` raises (broken same-folder early return in `move_email`).
Since the move assigns fresh UIDs in Trash, the source emails of `s` are
removed from `f`, and a moved email remains in Trash after the final
expunge if and only if its newly assigned UID is outside `s`'s
expansion. -/
theorem delete_email_amended :
    (∀ trash folder seq : String, folder ≠ trash →
      delete_email trash folder seq =
        .ok [ImapCmd.selectFolder folder, ImapCmd.uidMove seq trash, ImapCmd.expunge,
             ImapCmd.selectFolder trash, ImapCmd.uidStore seq "\\Deleted",
             ImapCmd.expunge]) ∧
    (∀ seq : String,
      delete_email "Trash" "Trash" seq =
        .ok [ImapCmd.selectFolder "Trash", ImapCmd.uidStore seq "\\Deleted",
             ImapCmd.expunge]) ∧
    (∀ trash seq : String, trash ≠ "Trash" →
      delete_email trash trash seq =
        .error ("Error while moving emails to trash folder for deletion: "
          ++ "TypeError: TypeAliasType object is not callable")) ∧
    (∀ (sset : Nat → Bool) (st : MailState),
      (∀ m ∈ st.src, m.del = false) → (∀ m ∈ st.trash, m.del = false) →
      (delete_email_sem sset st).src = st.src.filter (fun m => !sset m.uid) ∧
      (delete_email_sem sset st).trash =
        (st.trash ++ assignUids st.trashNext (st.src.filter (fun m => sset m.uid))).filter
          (fun m => !sset m.uid)) := by
  have hassign : ∀ (ms : List Msg) (n : Nat), (∀ m ∈ ms, m.del = false) →
      ∀ m ∈ assignUids n ms, m.del = false := by
    intro ms
    induction ms with
    | nil => intro n _ m hm; cases hm
    | cons x t ih =>
      intro n h m hm
      rcases List.mem_cons.mp hm with hm | hm
      · subst hm
        exact h x (by simp)
      · exact ih (n + 1) (fun a ha => h a (by simp [ha])) m hm
  have hstore : ∀ (sset : Nat → Bool) (l : List Msg), (∀ m ∈ l, m.del = false) →
      (l.map (fun m => if sset m.uid then { m with del := true } else m)).filter
          (fun m => !m.del)
        = l.filter (fun m => !sset m.uid) := by
    intro sset l
    induction l with
    | nil => intro _; rfl
    | cons x t ih =>
      intro h
      have hx : x.del = false := h x (by simp)
      have ht := ih (fun a ha => h a (by simp [ha]))
      by_cases hs : sset x.uid
      · simp [hs, ht]
      · simp [hs, hx, ht]
  refine ⟨?_, ?_, ?_, ?_⟩
  · intro trash folder seq h
    simp only [delete_email, move_email, ne_eq, h, not_false_eq_true, true_or, if_true,
      if_neg h]
    rfl
  · intro seq
    simp only [delete_email, move_email, ne_eq, not_true_eq_false, or_self, if_false]
    rfl
  · intro trash seq h
    simp only [delete_email, move_email, ne_eq, h, not_false_eq_true, or_true, if_true,
      if_pos rfl]
    rfl
  · intro sset st h1 h2
    constructor
    · show ((st.src.filter (fun m => !sset m.uid)).filter (fun m => !m.del)) = _
      rw [List.filter_eq_self]
      intro m hm
      have := h1 m (List.mem_of_mem_filter hm)
      simp [this]
    · show ((st.trash ++ assignUids st.trashNext _).map _).filter _ = _
      exact hstore sset _ (by
        intro m hm
        rcases List.mem_append.mp hm with hm | hm
        · exact h2 m hm
        · exact hassign _ _ (fun a ha => h1 a (List.mem_of_mem_filter ha)) m hm)

/-- Witness for `delete_email_amended`: a concrete non-Trash folder, a
concrete localized Trash name, and a concrete one-message state whose
moved email keeps a fresh UID outside the sequence set. -/
theorem delete_email_amended_witness :
    delete_email "[Gmail]/Trash" "INBOX" "7" =
      .ok [ImapCmd.selectFolder "INBOX", ImapCmd.uidMove "7" "[Gmail]/Trash",
           ImapCmd.expunge, ImapCmd.selectFolder "[Gmail]/Trash",
           ImapCmd.uidStore "7" "\\Deleted", ImapCmd.expunge] ∧
    delete_email "Archive" "Archive" "7" =
      .error ("Error while moving emails to trash folder for deletion: "
        ++ "TypeError: TypeAliasType object is not callable") ∧
    (delete_email_sem (fun n => n == 7) ⟨[⟨7, 1, false⟩], [], 5⟩).trash =
      (([] : List Msg) ++ assignUids 5 ([⟨7, 1, false⟩].filter (fun m => (fun n => n == 7) m.uid))).filter
        (fun m => !(fun n => n == 7) m.uid) :=
  ⟨delete_email_amended.1 "[Gmail]/Trash" "INBOX" "7" (by decide),
   delete_email_amended.2.2.1 "Archive" "7" (by decide),
   (delete_email_amended.2.2.2 (fun n => n == 7) ⟨[⟨7, 1, false⟩], [], 5⟩
     (by decide) (by decide)).2⟩

/-! ### C5 — helper lemmas for the OR-tree claim -/

theorem toList_append (a b : String) : (a ++ b).toList = a.toList ++ b.toList := rfl

theorem tokScan_append (st : TokSt) (l1 l2 : List Char) :
    tokScan st (l1 ++ l2) =
      ((tokScan (tokScan st l1).1 l2).1,
       (tokScan st l1).2 + (tokScan (tokScan st l1).1 l2).2) := by
  induction l1 generalizing st with
  | nil => simp [tokScan]
  | cons c t ih => simp [tokScan, ih (tokStep st c).1, Nat.add_assoc]

theorem tokScan_inQuote_of_no_quote (l : List Char) (h : ('"' : Char) ∉ l) :
    tokScan TokSt.inQuote l = (TokSt.inQuote, 0) := by
  induction l with
  | nil => rfl
  | cons c t ih =>
    have hc : ¬ c = '"' := fun hh => h (hh ▸ List.mem_cons_self c t)
    simp [tokScan, tokStep, hc, ih (fun hm => h (List.mem_cons_of_mem c hm))]

theorem OrTree.leaves_ne_nil (t : OrTree) : t.leaves ≠ [] := by
  induction t with
  | leaf k => simp [OrTree.leaves]
  | node l r ihl ihr =>
    simp only [OrTree.leaves, ne_eq, List.append_eq_nil]
    exact fun h => ihl h.1

theorem OrTree.orCount_add_one (t : OrTree) : t.orCount + 1 = t.leaves.length := by
  induction t with
  | leaf k => rfl
  | node l r ihl ihr =>
    simp only [OrTree.orCount, OrTree.leaves, List.length_append]
    omega

/-- `recursive_or_query` renders the midpoint-split tree `buildOrTree`,
whose leaves are exactly the key list and which is size-balanced. -/
theorem recursive_or_query_tree :
    ∀ (fuel : Nat) (ks : List String), ks.length ≤ fuel → ks ≠ [] →
      recursive_or_query "FROM" ks = (buildOrTree ks).render "FROM" ∧
      (buildOrTree ks).leaves = ks ∧ (buildOrTree ks).balanced := by
  intro fuel
  induction fuel with
  | zero =>
    intro ks h hne
    cases ks with
    | nil => exact absurd rfl hne
    | cons a t => simp at h
  | succ n ih =>
    intro ks h hne
    match ks with
    | [k] =>
      refine ⟨?_, ?_, ?_⟩
      · simp [recursive_or_query, buildOrTree, OrTree.render]
      · simp [buildOrTree, OrTree.leaves]
      · simp [buildOrTree, OrTree.balanced]
    | k₁ :: k₂ :: rest =>
      have hlen : (k₁ :: k₂ :: rest).length = rest.length + 2 := by simp
      have hmid1 : 1 ≤ (k₁ :: k₂ :: rest).length / 2 := by omega
      have hmidlt : (k₁ :: k₂ :: rest).length / 2 < (k₁ :: k₂ :: rest).length := by omega
      have htake_ne : (k₁ :: k₂ :: rest).take ((k₁ :: k₂ :: rest).length / 2) ≠ [] := by
        intro hcon
        have := congrArg List.length hcon
        simp [List.length_take] at this
        omega
      have hdrop_ne : (k₁ :: k₂ :: rest).drop ((k₁ :: k₂ :: rest).length / 2) ≠ [] := by
        intro hcon
        rw [List.drop_eq_nil_iff] at hcon
        omega
      have htake_len : ((k₁ :: k₂ :: rest).take ((k₁ :: k₂ :: rest).length / 2)).length ≤ n := by
        simp [List.length_take]
        omega
      have hdrop_len : ((k₁ :: k₂ :: rest).drop ((k₁ :: k₂ :: rest).length / 2)).length ≤ n := by
        simp [List.length_drop]
        omega
      obtain ⟨ihtq, ihtl, ihtb⟩ := ih _ htake_len htake_ne
      obtain ⟨ihdq, ihdl, ihdb⟩ := ih _ hdrop_len hdrop_ne
      refine ⟨?_, ?_, ?_⟩
      · rw [recursive_or_query, buildOrTree]
        simp only [OrTree.render, ihtq, ihdq]
      · rw [buildOrTree]
        simp only [OrTree.leaves, ihtl, ihdl, List.take_append_drop]
      · rw [buildOrTree]
        refine ⟨?_, ihtb, ihdb⟩
        rw [ihtl, ihdl]
        simp only [List.length_take, List.length_drop]
        omega

/-- Scanning the rendered tree from a token boundary yields exactly
`leaves − 1` OR tokens and ends in the `word` or `bound` state, provided
no key contains a double quote. -/
theorem tokScan_render (t : OrTree) (hq : ∀ k ∈ t.leaves, ('"' : Char) ∉ k.toList) :
    ∃ s, tokScan TokSt.bound ((t.render "FROM").toList) = (s, t.leaves.length - 1)
      ∧ (s = TokSt.word ∨ s = TokSt.bound) := by
  induction t with
  | leaf k =>
    have hk : ('"' : Char) ∉ k.toList := hq k (by simp [OrTree.leaves])
    refine ⟨TokSt.word, ?_, Or.inl rfl⟩
    have htl : (OrTree.render "FROM" (OrTree.leaf k)).toList =
        ("FROM" ++ " \"").toList ++ (k.toList ++ "\"".toList) := by
      simp [OrTree.render, toList_append, List.append_assoc]
    rw [htl, tokScan_append]
    have h1 : tokScan TokSt.bound (("FROM" ++ " \"").toList) = (TokSt.inQuote, 0) := by rfl
    rw [h1]
    simp only
    rw [tokScan_append, tokScan_inQuote_of_no_quote k.toList hk]
    simp [OrTree.leaves]
    rfl
  | node l r ihl ihr =>
    obtain ⟨sl, hsl, hslor⟩ := ihl (fun k hk => hq k (by simp [OrTree.leaves, hk]))
    obtain ⟨sr, hsr, hsror⟩ := ihr (fun k hk => hq k (by simp [OrTree.leaves, hk]))
    refine ⟨TokSt.bound, ?_, Or.inr rfl⟩
    have htl : (OrTree.render "FROM" (OrTree.node l r)).toList =
        "OR (".toList ++ ((OrTree.render "FROM" l).toList ++
          (") (".toList ++ ((OrTree.render "FROM" r).toList ++ ")".toList))) := by
      simp [OrTree.render, toList_append, List.append_assoc]
    rw [htl, tokScan_append]
    have h1 : tokScan TokSt.bound ("OR (".toList) = (TokSt.bound, 1) := by rfl
    rw [h1]
    simp only
    rw [tokScan_append, hsl]
    simp only
    have h2 : tokScan sl (") (".toList) = (TokSt.bound, 0) := by
      rcases hslor with h | h <;> subst h <;> rfl
    rw [tokScan_append, h2]
    simp only
    rw [tokScan_append, hsr]
    simp only
    have h3 : tokScan sr (")".toList) = (TokSt.bound, 0) := by
      rcases hsror with h | h <;> subst h <;> rfl
    rw [h3]
    simp only [OrTree.leaves, List.length_append]
    have hl1 : 1 ≤ l.leaves.length :=
      List.length_pos.mpr (OrTree.leaves_ne_nil l)
    have hr1 : 1 ≤ r.leaves.length :=
      List.length_pos.mpr (OrTree.leaves_ne_nil r)
    refine Prod.ext rfl ?_
    simp only
    omega

/-- Strings whose first and last characters exist and are not spaces are
unchanged by `pyStrip`. -/
theorem pyStrip_eq_self (l : List Char) (h1 : ∀ c, l.head? = some c → c ≠ ' ')
    (h2 : ∀ c, l.getLast? = some c → c ≠ ' ') : pyStrip l = l := by
  unfold pyStrip
  have hd : l.dropWhile (· = ' ') = l := by
    cases l with
    | nil => rfl
    | cons c t =>
      have := h1 c rfl
      simp [List.dropWhile_cons, this]
  rw [hd]
  have hg : l.reverse.dropWhile (· = ' ') = l.reverse := by
    cases hr : l.reverse with
    | nil => rfl
    | cons c t =>
      have hc : l.getLast? = some c := by
        rw [← List.head?_reverse, hr]
        rfl
      have := h2 c hc
      simp [List.dropWhile_cons, this]
  rw [hg, List.reverse_reverse]

/-- First and last characters of the rendered OR tree: it starts with `F`
or `O` and ends with `"` or `)` — never a space. -/
theorem render_head_last (t : OrTree) :
    ((t.render "FROM").toList.head? = some 'F' ∨ (t.render "FROM").toList.head? = some 'O') ∧
    ((t.render "FROM").toList.getLast? = some '"' ∨
      (t.render "FROM").toList.getLast? = some ')') := by
  cases t with
  | leaf k =>
    constructor
    · left
      rfl
    · left
      have htl : (OrTree.render "FROM" (OrTree.leaf k)).toList =
          (("FROM" ++ " \"").toList ++ k.toList) ++ "\"".toList := by
        simp [OrTree.render, toList_append, List.append_assoc]
      rw [htl, List.getLast?_append]
      rfl
  | node l r =>
    constructor
    · right
      have htl : (OrTree.render "FROM" (OrTree.node l r)).toList =
          'O' :: ("R (" ++ OrTree.render "FROM" l ++ ") (" ++ OrTree.render "FROM" r
            ++ ")").toList := by
        simp [OrTree.render, toList_append]
      rw [htl]
      rfl
    · right
      have htl : (OrTree.render "FROM" (OrTree.node l r)).toList =
          ("OR (" ++ OrTree.render "FROM" l ++ ") (" ++ OrTree.render "FROM" r).toList
            ++ ")".toList := by
        simp [OrTree.render, toList_append]
      rw [htl, List.getLast?_append]
      rfl

/-- C5: for a `SearchCriteria` with `n ≥ 2` senders (whose values, being
address strings, contain no double quote), the `FROM` subtree of the query
produced by `build_search_criteria_query` is the balanced binary `OR` tree
obtained by splitting the sender list at its midpoint at every level, and
it contains exactly `n − 1` standalone `OR` tokens. -/
theorem build_search_criteria_query_or_balanced (sc : SearchCriteria) (n : Nat)
    (hn : sc.senders.length = n) (h2 : 2 ≤ n)
    (hq : ∀ k ∈ sc.senders, ('"' : Char) ∉ k.toList) :
    build_search_criteria_query sc =
      String.mk (pyStrip (String.toList (
        add_criterion "FROM" (CVal.list (extract_email_addresses sc.senders))
          (sc.senders.length > 1)
        ++ rest_search_criteria_query sc))) ∧
    add_criterion "FROM" (CVal.list (extract_email_addresses sc.senders))
        (sc.senders.length > 1)
      = " (" ++ (buildOrTree sc.senders).render "FROM" ++ ")" ∧
    recursive_or_query "FROM" sc.senders = (buildOrTree sc.senders).render "FROM" ∧
    (buildOrTree sc.senders).leaves = sc.senders ∧
    (buildOrTree sc.senders).balanced ∧
    (buildOrTree sc.senders).orCount = n - 1 ∧
    orTokenCount (add_criterion "FROM" (CVal.list (extract_email_addresses sc.senders))
        (sc.senders.length > 1)) = n - 1 := by
  have hne : sc.senders ≠ [] := by
    intro h
    rw [h] at hn
    simp at hn
    omega
  obtain ⟨hrq, hlv, hbal⟩ :=
    recursive_or_query_tree sc.senders.length sc.senders le_rfl hne
  have hgt : sc.senders.length > 1 := by omega
  have hfalsy : (CVal.list (extract_email_addresses sc.senders)).falsy = false := by
    simp [CVal.falsy, extract_email_addresses, hne]
  have hfrom : add_criterion "FROM" (CVal.list (extract_email_addresses sc.senders))
      (sc.senders.length > 1)
      = " (" ++ (buildOrTree sc.senders).render "FROM" ++ ")" := by
    unfold add_criterion
    rw [if_neg (by simp [hfalsy])]
    simp only [extract_email_addresses]
    rw [if_neg (by decide), if_neg (by omega), if_pos (by simpa using hgt)]
    rw [hrq]
    have hh1 : ∀ c, ((buildOrTree sc.senders).render "FROM").toList.head? = some c →
        c ≠ ' ' := by
      intro c hc
      rcases (render_head_last (buildOrTree sc.senders)).1 with h | h <;>
        rw [h] at hc <;> injection hc with hc <;> subst hc <;> decide
    have hh2 : ∀ c, ((buildOrTree sc.senders).render "FROM").toList.getLast? = some c →
        c ≠ ' ' := by
      intro c hc
      rcases (render_head_last (buildOrTree sc.senders)).2 with h | h <;>
        rw [h] at hc <;> injection hc with hc <;> subst hc <;> decide
    rw [pyStrip_eq_self _ hh1 hh2]
    rfl
  refine ⟨rfl, hfrom, hrq, hlv, hbal, ?_, ?_⟩
  · have := OrTree.orCount_add_one (buildOrTree sc.senders)
    rw [hlv, hn] at this
    omega
  · rw [hfrom]
    obtain ⟨s, hscan, hsor⟩ := tokScan_render (buildOrTree sc.senders)
      (fun k hk => hq k (hlv ▸ hk))
    unfold orTokenCount
    have htl : (" (" ++ (buildOrTree sc.senders).render "FROM" ++ ")").toList =
        " (".toList ++ (((buildOrTree sc.senders).render "FROM").toList ++ ")".toList) := by
      simp [toList_append, List.append_assoc]
    rw [htl, tokScan_append]
    have h0 : tokScan TokSt.bound (" (".toList) = (TokSt.bound, 0) := by rfl
    rw [h0]
    simp only
    rw [tokScan_append, hscan]
    simp only
    have h3 : tokScan s (")".toList) = (TokSt.bound, 0) := by
      rcases hsor with h | h <;> subst h <;> rfl
    rw [h3]
    simp only
    rw [hlv, hn]
    simp

/-- Witness for `build_search_criteria_query_or_balanced` at a concrete
three-sender criteria. -/
theorem build_search_criteria_query_or_balanced_witness :
    orTokenCount (add_criterion "FROM"
        (CVal.list (extract_email_addresses
          (⟨["a@x.com", "b@x.com", "c@x.com"], [], [], [], "", "", "", 0, 0, "", "", [],
            [], false⟩ : SearchCriteria).senders))
        ((⟨["a@x.com", "b@x.com", "c@x.com"], [], [], [], "", "", "", 0, 0, "", "", [],
            [], false⟩ : SearchCriteria).senders.length > 1))
      = 3 - 1 ∧
    (buildOrTree (⟨["a@x.com", "b@x.com", "c@x.com"], [], [], [], "", "", "", 0, 0, "",
        "", [], [], false⟩ : SearchCriteria).senders).balanced :=
  ⟨(build_search_criteria_query_or_balanced
      ⟨["a@x.com", "b@x.com", "c@x.com"], [], [], [], "", "", "", 0, 0, "", "", [], [],
        false⟩ 3 rfl (by omega) (by decide)).2.2.2.2.2.2,
   (build_search_criteria_query_or_balanced
      ⟨["a@x.com", "b@x.com", "c@x.com"], [], [], [], "", "", "", 0, 0, "", "", [], [],
        false⟩ 3 rfl (by omega) (by decide)).2.2.2.2.1⟩

/-! ### C2 — helper lemmas for the sequence-set validator -/

theorem pySplitChar_ne_nil (c : Char) (l : List Char) : pySplitChar c l ≠ [] := by
  induction l with
  | nil => simp [pySplitChar]
  | cons d t ih =>
    rw [pySplitChar]
    by_cases hd : d = c
    · simp [hd]
    · simp only [if_neg hd]
      match hr : pySplitChar c t with
      | [] => simp
      | h :: t2 => simp

theorem pySplitChar_of_not_contains (c : Char) (l : List Char)
    (h : l.contains c = false) : pySplitChar c l = [l] := by
  induction l with
  | nil => rfl
  | cons d t ih =>
    simp only [List.contains_cons, Bool.or_eq_false_iff, beq_eq_false_iff_ne, ne_eq] at h
    rw [pySplitChar, if_neg (fun hh => h.1 hh.symm), ih h.2]

theorem pySplitChar_length_of_contains (c : Char) (l : List Char)
    (h : l.contains c = true) : 2 ≤ (pySplitChar c l).length := by
  induction l with
  | nil => simp [List.contains] at h
  | cons d t ih =>
    rw [pySplitChar]
    by_cases hd : d = c
    · rw [if_pos hd]
      have := pySplitChar_ne_nil c t
      have : 1 ≤ (pySplitChar c t).length := List.length_pos.mpr this
      simp only [List.length_cons]
      omega
    · simp only [List.contains_cons, Bool.or_eq_true, beq_iff_eq] at h
      rcases h with h | h
      · exact absurd h.symm hd
      · have h2 := ih h
        rw [if_neg hd]
        match hr : pySplitChar c t with
        | [] => exact absurd hr (pySplitChar_ne_nil c t)
        | x :: t2 =>
          rw [hr] at h2
          simpa using h2

theorem natToStrAux_spec (n : Nat) :
    ∀ fuel, n < fuel →
      natToStrAux fuel n ≠ [] ∧ (natToStrAux fuel n).all isAsciiDigit = true ∧
      (natToStrAux fuel n).foldl (fun acc c => acc * 10 + digitVal c) 0 = n := by
  induction n using Nat.strong_induction_on with
  | _ n ih =>
    intro fuel hfuel
    match fuel with
    | f + 1 =>
      rw [natToStrAux]
      by_cases h : n < 10
      · rw [if_pos h]
        refine ⟨by simp, ?_, ?_⟩
        · have : ∀ d < 10, isAsciiDigit (decDigit d) = true := by decide
          simp [this n h]
        · have : ∀ d < 10, digitVal (decDigit d) = d := by decide
          simp [this n h]
      · rw [if_neg h]
        obtain ⟨ih1, ih2, ih3⟩ := ih (n / 10) (Nat.div_lt_self (by omega) (by omega))
          f (by omega)
        refine ⟨by simp, ?_, ?_⟩
        · rw [List.all_append, ih2]
          have : ∀ d < 10, isAsciiDigit (decDigit d) = true := by decide
          simp [this (n % 10) (Nat.mod_lt _ (by omega))]
        · rw [List.foldl_append, ih3]
          have : ∀ d < 10, digitVal (decDigit d) = d := by decide
          simp only [List.foldl_cons, List.foldl_nil,
            this (n % 10) (Nat.mod_lt _ (by omega))]
          omega

theorem natToStr_spec (n : Nat) :
    natToStr n ≠ [] ∧ (natToStr n).all isAsciiDigit = true ∧
    (natToStr n).foldl (fun acc c => acc * 10 + digitVal c) 0 = n :=
  natToStrAux_spec n (n + 1) (by omega)

theorem pyInt_natToStr (n : Nat) : pyInt (natToStr n) = some n := by
  obtain ⟨h1, h2, h3⟩ := natToStr_spec n
  rw [pyInt, if_pos ⟨h1, h2⟩, h3]

theorem parseSeqNum_star (l : List Char) (h : parseSeqNum l = some SeqNum.star) :
    l = ['*'] := by
  by_cases hl : l = ['*']
  · exact hl
  · rw [parseSeqNum, if_neg hl] at h
    by_cases hc : l ≠ [] ∧ l.all isAsciiDigit ∧ l.head? ≠ some '0'
    · rw [if_pos hc] at h
      cases hv : pyInt l with
      | none => rw [hv] at h; simp at h
      | some v => rw [hv] at h; simp at h
    · rw [if_neg hc] at h
      simp at h

theorem parseSeqNum_num (l : List Char) (n : Nat)
    (h : parseSeqNum l = some (SeqNum.num n)) :
    l ≠ ['*'] ∧ pyInt l = some n := by
  by_cases hl : l = ['*']
  · rw [parseSeqNum, if_pos hl] at h
    simp at h
  · refine ⟨hl, ?_⟩
    rw [parseSeqNum, if_neg hl] at h
    by_cases hc : l ≠ [] ∧ l.all isAsciiDigit ∧ l.head? ≠ some '0'
    · rw [if_pos hc] at h
      cases hv : pyInt l with
      | none => rw [hv] at h; simp at h
      | some v =>
        rw [hv] at h
        simp at h
        exact congrArg some (by omega)
    · rw [if_neg hc] at h
      simp at h

/-- Soundness of one segment: if the RFC item parse and the code expansion
both succeed on a comma-segment, every member of the segment's expansion
string list is checked by the code, and the RFC values of the (ascending)
item are numerically covered by those strings. -/
theorem expandSegment_sound (ul : List Char) (M : Nat) (uids : List String)
    (hM : pyInt ul = some M) (hulin : String.mk ul ∈ uids)
    (seg : List Char) (it : RfcItem) (hit : parseRfcItem seg = some it)
    (hasc : it.asc M) (ex : List (List Char)) (hex : expandSegment ul seg = some ex)
    (hmem : ∀ e ∈ ex, String.mk e ∈ uids) :
    ∀ x ∈ it.expand M, ∃ u ∈ uids, pyInt u.toList = some x := by
  rw [parseRfcItem] at hit
  cases hsplit : pySplitChar ':' seg with
  | nil => exact absurd hsplit (pySplitChar_ne_nil ':' seg)
  | cons a t =>
  cases t with
  | nil =>
    -- a single part: the segment has no colon and the part is `seg` itself
    rw [hsplit] at hit
    have hit1 : (parseSeqNum a).map RfcItem.single = some it := hit
    have hcont : seg.contains ':' = false := by
      by_contra hc
      have := pySplitChar_length_of_contains ':' seg (by simpa using hc)
      rw [hsplit] at this
      simp at this
    have hone : a = seg := by
      have h2 := pySplitChar_of_not_contains ':' seg hcont
      rw [hsplit] at h2
      injection h2 with h4 _
    subst hone
    have hcond : ¬ (a.contains ':' = true) := by
      intro hcc
      rw [hcont] at hcc
      exact Bool.false_ne_true hcc
    rw [expandSegment, if_neg hcond] at hex
    cases hsn : parseSeqNum a with
    | none => rw [hsn] at hit1; simp at hit1
    | some sn =>
      rw [hsn] at hit1
      simp only [Option.map_some'] at hit1
      injection hit1 with hit1
      subst hit1
      cases sn with
      | star =>
        have hstar := parseSeqNum_star a hsn
        rw [if_pos hstar] at hex
        injection hex with hex
        intro x hx
        simp only [RfcItem.expand, SeqNum.resolve, List.mem_singleton] at hx
        subst hx
        exact ⟨String.mk ul, hulin, by simpa using hM⟩
      | num n =>
        obtain ⟨hne, hval⟩ := parseSeqNum_num a n hsn
        rw [if_neg hne] at hex
        injection hex with hex
        intro x hx
        simp only [RfcItem.expand, SeqNum.resolve, List.mem_singleton] at hx
        subst hx
        refine ⟨String.mk a, ?_, by simpa using hval⟩
        exact hmem a (by rw [← hex]; simp)
  | cons b t2 =>
  cases t2 with
  | cons d t3 =>
    rw [hsplit] at hit
    exact absurd hit (by simp)
  | nil =>
    rw [hsplit] at hit
    have hit1 : (match parseSeqNum a with
        | none => none
        | some sa =>
          match parseSeqNum b with
          | none => none
          | some sb => some (RfcItem.range sa sb)) = some it := hit
    have hcont : seg.contains ':' = true := by
      by_contra hc
      have := pySplitChar_of_not_contains ':' seg (by simpa using hc)
      rw [hsplit] at this
      simp at this
    rw [expandSegment, if_pos (by rw [hcont]), hsplit] at hex
    have hh1 : ([a, b] : List (List Char)).headD [] = a := rfl
    have hh2 : ([a, b] : List (List Char)).getLastD [] = b := rfl
    rw [hh1, hh2] at hex
    cases hsa : parseSeqNum a with
    | none => rw [hsa] at hit1; simp at hit1
    | some sa =>
      rw [hsa] at hit1
      cases hsb : parseSeqNum b with
      | none => rw [hsb] at hit1; simp at hit1
      | some sb =>
        rw [hsb] at hit1
        simp only [Option.some.injEq] at hit1
        subst hit1
        have hstart :
            (if a = ['*'] then pyInt ul else pyInt a) = some (sa.resolve M) := by
          cases sa with
          | star =>
            rw [if_pos (parseSeqNum_star a hsa)]
            exact hM
          | num n =>
            obtain ⟨hne, hval⟩ := parseSeqNum_num a n hsa
            rw [if_neg hne]
            exact hval
        have hstop :
            (if b = ['*'] then pyInt ul else pyInt b) = some (sb.resolve M) := by
          cases sb with
          | star =>
            rw [if_pos (parseSeqNum_star b hsb)]
            exact hM
          | num n =>
            obtain ⟨hne, hval⟩ := parseSeqNum_num b n hsb
            rw [if_neg hne]
            exact hval
        rw [hstart] at hex
        have hex1 : (match (if b = ['*'] then pyInt ul else pyInt b) with
            | none => none
            | some stop =>
              some ((List.range' (sa.resolve M) (stop + 1 - sa.resolve M)).map natToStr
                ++ [natToStr (max (sa.resolve M) stop)])) = some ex := hex
        rw [hstop] at hex1
        have hex2 : some ((List.range' (sa.resolve M)
              (sb.resolve M + 1 - sa.resolve M)).map natToStr
            ++ [natToStr (max (sa.resolve M) (sb.resolve M))]) = some ex := hex1
        injection hex2 with hex2
        intro x hx
        simp only [RfcItem.asc] at hasc
        simp only [RfcItem.expand] at hx
        rw [Nat.min_eq_left hasc, Nat.max_eq_right hasc] at hx
        refine ⟨String.mk (natToStr x), ?_, by simpa using pyInt_natToStr x⟩
        refine hmem (natToStr x) ?_
        rw [← hex2]
        simp only [List.mem_append, List.mem_map, List.mem_singleton]
        exact Or.inl ⟨x, hx, rfl⟩

/-- Soundness of the whole expansion loop over comma segments. -/
theorem expandAll_sound (ul : List Char) (M : Nat) (uids : List String)
    (hM : pyInt ul = some M) (hulin : String.mk ul ∈ uids) :
    ∀ (segs : List (List Char)) (items : List RfcItem) (ex : List (List Char)),
      parseRfcItems segs = some items → expandAll ul segs = some ex →
      (∀ it ∈ items, it.asc M) → (∀ e ∈ ex, String.mk e ∈ uids) →
      ∀ it ∈ items, ∀ x ∈ it.expand M, ∃ u ∈ uids, pyInt u.toList = some x := by
  intro segs
  induction segs with
  | nil =>
    intro items ex hitems _ _ _ it hit
    simp only [parseRfcItems, Option.some.injEq] at hitems
    subst hitems
    cases hit
  | cons seg rest ih =>
    intro items ex hitems hexp hasc hmem
    rw [parseRfcItems] at hitems
    rw [expandAll] at hexp
    cases hseg1 : parseRfcItem seg with
    | none => rw [hseg1] at hitems; simp at hitems
    | some it1 =>
      rw [hseg1] at hitems
      cases hrest : parseRfcItems rest with
      | none => rw [hrest] at hitems; simp at hitems
      | some items2 =>
        rw [hrest] at hitems
        have hitems1 : some (it1 :: items2) = some items := hitems
        injection hitems1 with hitems1
        cases hex1 : expandSegment ul seg with
        | none => rw [hex1] at hexp; simp at hexp
        | some e1 =>
          rw [hex1] at hexp
          cases hexr : expandAll ul rest with
          | none => rw [hexr] at hexp; simp at hexp
          | some er =>
            rw [hexr] at hexp
            have hexp1 : some (e1 ++ er) = some ex := hexp
            injection hexp1 with hexp1
            subst hitems1
            intro it hit x hx
            rcases List.mem_cons.mp hit with hithead | hittail
            · subst hithead
              exact expandSegment_sound ul M uids hM hulin seg it hseg1
                (hasc it (by simp)) e1 hex1
                (fun e he => hmem e (by rw [← hexp1]; simp [he])) x hx
            · exact ih items2 er hrest hexr (fun i hi => hasc i (by simp [hi]))
                (fun e he => hmem e (by rw [← hexp1]; simp [he])) it hittail x hx

/-- C2, counterexample: the validator accepts `1:2:3` against
`["1","2","3"]`, but `1:2:3` is not in the RFC 9051 sequence-set grammar
(an item has at most one colon). -/
theorem sequence_set_valid_counterexample :
    _is_sequence_set_valid "1:2:3" ["1", "2", "3"] = some true ∧
    rfcSequenceSet "1:2:3" = none := by
  constructor <;> rfl

/-- C2, amended: the validator's regex accepts a superset of the RFC 9051
grammar (for example colon-chains such as `1:2:3`), and the wildcard `*`
resolves to `uids[-1]`, the *last* element of the list, not to its
numerical maximum.  Restricted to RFC-valid sequence sets whose ranges are
ascending after resolving `*` against the value `M` of the last UID (the
largest one when the list is, as in the callers, ascending), a `True`
verdict does guarantee that every UID in the RFC expansion of `S` is an
element of `uids`. -/
theorem sequence_set_valid_amended (S : String) (uids : List String) (M : Nat)
    (ul : String) (items : List RfcItem)
    (hlast : uids.getLast? = some ul)
    (hM : pyInt ul.toList = some M)
    (hmax : ∀ u ∈ uids, ∀ v, pyInt u.toList = some v → v ≤ M)
    (hitems : rfcSequenceSet S = some items)
    (hasc : ∀ it ∈ items, it.asc M)
    (hvalid : _is_sequence_set_valid S uids = some true) :
    ∀ it ∈ items, ∀ x ∈ it.expand M, ∃ u ∈ uids, pyInt u.toList = some x := by
  have hulin : String.mk ul.toList ∈ uids := by
    have := List.mem_of_mem_getLast? hlast
    simpa using this
  rw [_is_sequence_set_valid] at hvalid
  split at hvalid
  · simp at hvalid
  · rw [hlast] at hvalid
    have hvalid1 : (match expandAll ul.toList (pySplitChar ',' S.toList) with
        | none => none
        | some expanded =>
          some (expanded.all (fun u => uids.contains (String.mk u)))) = some true :=
      hvalid
    cases hexp : expandAll ul.toList (pySplitChar ',' S.toList) with
    | none =>
      rw [hexp] at hvalid1
      simp at hvalid1
    | some ex =>
      rw [hexp] at hvalid1
      have hvalid2 : some (ex.all (fun u => uids.contains (String.mk u))) = some true :=
        hvalid1
      injection hvalid2 with hvalid2
      have hmem : ∀ e ∈ ex, String.mk e ∈ uids := by
        intro e he
        have hall := List.all_eq_true.mp hvalid2 e he
        simpa [List.elem_iff] using hall
      rw [rfcSequenceSet] at hitems
      exact expandAll_sound ul.toList M uids hM hulin (pySplitChar ',' S.toList)
        items ex hitems hexp hasc hmem

/-- Witness for `sequence_set_valid_amended` at `S = "1,3:6,9"` against the
ascending UID list `1..10` (the validator docstring's own example):
expanding the range `3:6` yields `5`, which is indeed present. -/
theorem sequence_set_valid_amended_witness :
    ∃ u ∈ ["1", "2", "3", "4", "5", "6", "7", "8", "9", "10"],
      pyInt u.toList = some 5 := by
  have h := sequence_set_valid_amended "1,3:6,9"
    ["1", "2", "3", "4", "5", "6", "7", "8", "9", "10"] 10 "10"
    [RfcItem.single (SeqNum.num 1), RfcItem.range (SeqNum.num 3) (SeqNum.num 6),
     RfcItem.single (SeqNum.num 9)]
    (by rfl) (by rfl) (by decide) (by rfl) (by decide) (by rfl)
  exact h (RfcItem.range (SeqNum.num 3) (SeqNum.num 6)) (by decide) 5 (by decide)

/-! ### C4 — helper lemmas for the modified UTF-7 codec -/

theorem b64Char_facts : ∀ i < 64,
    b64Index (b64Char i) = some i ∧ b64Char i ≠ 61 ∧ b64Char i ≠ 45 ∧
    b64Char i ≠ 38 ∧
    (if (if b64Char i = 47 then 44 else b64Char i) = 44 then 47
     else if b64Char i = 47 then 44 else b64Char i) = b64Char i ∧
    (if b64Char i = 47 then 44 else b64Char i) ≠ 45 ∧
    (if b64Char i = 47 then 44 else b64Char i) ≠ 38 := by decide

/-- Base64 round-trip on the stripped encoding, through the lenient decode
(`=`-truncation and alphabet filtering included). -/
theorem b64_roundtrip : ∀ (n : Nat) (bs : List Nat), bs.length ≤ n →
    (∀ b ∈ bs, b < 256) →
    b64decodeGroups (((b64encodeStripped bs).takeWhile (fun c => c ≠ 61)).filterMap
      b64Index) = some bs := by
  intro n
  induction n with
  | zero =>
    intro bs h _
    have : bs = [] := List.length_eq_zero.mp (by omega)
    subst this
    rfl
  | succ m ih =>
    intro bs hlen hb
    match bs with
    | [] => rfl
    | [a] =>
      have ha : a < 256 := hb a (by simp)
      have h1 : a / 4 < 64 := by omega
      have h2 : a % 4 * 16 < 64 := by omega
      rw [b64encodeStripped]
      rw [List.takeWhile_cons_of_pos (by simpa using (b64Char_facts _ h1).2.1),
          List.takeWhile_cons_of_pos (by simpa using (b64Char_facts _ h2).2.1)]
      simp only [List.takeWhile_nil]
      simp only [List.filterMap_cons, (b64Char_facts _ h1).1, (b64Char_facts _ h2).1,
        List.filterMap_nil]
      rw [b64decodeGroups]
      have e1 : a / 4 * 4 + a % 4 * 16 / 16 = a := by omega
      rw [e1]
    | [a, b] =>
      have ha : a < 256 := hb a (by simp)
      have hbb : b < 256 := hb b (by simp)
      have h1 : a / 4 < 64 := by omega
      have h2 : a % 4 * 16 + b / 16 < 64 := by omega
      have h3 : b % 16 * 4 < 64 := by omega
      rw [b64encodeStripped]
      rw [List.takeWhile_cons_of_pos (by simpa using (b64Char_facts _ h1).2.1),
          List.takeWhile_cons_of_pos (by simpa using (b64Char_facts _ h2).2.1),
          List.takeWhile_cons_of_pos (by simpa using (b64Char_facts _ h3).2.1)]
      simp only [List.takeWhile_nil]
      simp only [List.filterMap_cons, (b64Char_facts _ h1).1, (b64Char_facts _ h2).1,
        (b64Char_facts _ h3).1, List.filterMap_nil]
      rw [b64decodeGroups]
      have e1 : a / 4 * 4 + (a % 4 * 16 + b / 16) / 16 = a := by omega
      have e2 : (a % 4 * 16 + b / 16) % 16 * 16 + b % 16 * 4 / 4 = b := by omega
      rw [e1, e2]
    | a :: b :: c :: rest =>
      have ha : a < 256 := hb a (by simp)
      have hbb : b < 256 := hb b (by simp)
      have hc : c < 256 := hb c (by simp)
      have h1 : a / 4 < 64 := by omega
      have h2 : a % 4 * 16 + b / 16 < 64 := by omega
      have h3 : b % 16 * 4 + c / 64 < 64 := by omega
      have h4 : c % 64 < 64 := by omega
      have hrest := ih rest (by simp at hlen; omega) (fun x hx => hb x (by simp [hx]))
      rw [b64encodeStripped]
      rw [List.takeWhile_cons_of_pos (by simpa using (b64Char_facts _ h1).2.1),
          List.takeWhile_cons_of_pos (by simpa using (b64Char_facts _ h2).2.1),
          List.takeWhile_cons_of_pos (by simpa using (b64Char_facts _ h3).2.1),
          List.takeWhile_cons_of_pos (by simpa using (b64Char_facts _ h4).2.1)]
      simp only [List.filterMap_cons, (b64Char_facts _ h1).1, (b64Char_facts _ h2).1,
        (b64Char_facts _ h3).1, (b64Char_facts _ h4).1]
      rw [b64decodeGroups, hrest]
      have e1 : a / 4 * 4 + (a % 4 * 16 + b / 16) / 16 = a := by omega
      have e2 : (a % 4 * 16 + b / 16) % 16 * 16 + (b % 16 * 4 + c / 64) / 4 = b := by omega
      have e3 : (b % 16 * 4 + c / 64) % 4 * 64 + c % 64 = c := by omega
      rw [e1, e2, e3]

theorem b64encodeStripped_mem : ∀ (n : Nat) (bs : List Nat), bs.length ≤ n →
    (∀ b ∈ bs, b < 256) →
    ∀ ch ∈ b64encodeStripped bs, ∃ i, i < 64 ∧ ch = b64Char i := by
  intro n
  induction n with
  | zero =>
    intro bs h _
    have : bs = [] := List.length_eq_zero.mp (by omega)
    subst this
    intro ch hch
    simp [b64encodeStripped] at hch
  | succ m ih =>
    intro bs hlen hb ch hch
    match bs with
    | [] => simp [b64encodeStripped] at hch
    | [a] =>
      have ha : a < 256 := hb a (by simp)
      rw [b64encodeStripped] at hch
      rcases List.mem_cons.mp hch with h | h
      · exact ⟨a / 4, by omega, h⟩
      · rcases List.mem_cons.mp h with h2 | h2
        · exact ⟨a % 4 * 16, by omega, h2⟩
        · cases h2
    | [a, b] =>
      have ha : a < 256 := hb a (by simp)
      have hbb : b < 256 := hb b (by simp)
      rw [b64encodeStripped] at hch
      rcases List.mem_cons.mp hch with h | h
      · exact ⟨a / 4, by omega, h⟩
      · rcases List.mem_cons.mp h with h2 | h2
        · exact ⟨a % 4 * 16 + b / 16, by omega, h2⟩
        · rcases List.mem_cons.mp h2 with h3 | h3
          · exact ⟨b % 16 * 4, by omega, h3⟩
          · cases h3
    | a :: b :: c :: rest =>
      have ha : a < 256 := hb a (by simp)
      have hbb : b < 256 := hb b (by simp)
      have hc : c < 256 := hb c (by simp)
      rw [b64encodeStripped] at hch
      rcases List.mem_cons.mp hch with h | h
      · exact ⟨a / 4, by omega, h⟩
      · rcases List.mem_cons.mp h with h2 | h2
        · exact ⟨a % 4 * 16 + b / 16, by omega, h2⟩
        · rcases List.mem_cons.mp h2 with h3 | h3
          · exact ⟨b % 16 * 4 + c / 64, by omega, h3⟩
          · rcases List.mem_cons.mp h3 with h4 | h4
            · exact ⟨c % 64, by omega, h4⟩
            · exact ih rest (by simp at hlen; omega)
                (fun x hx => hb x (by simp [hx])) ch h4

theorem b64encodeStripped_ne_nil (bs : List Nat) (h : bs ≠ []) :
    b64encodeStripped bs ≠ [] := by
  match bs with
  | [] => exact absurd rfl h
  | [a] => simp [b64encodeStripped]
  | [a, b] => simp [b64encodeStripped]
  | a :: b :: c :: rest => simp [b64encodeStripped]

/-- UTF-16-BE round-trip on scalar values, fuel-generalised so that the
induction goes through the fuelled decoder. -/
theorem utf16_roundtrip_aux : ∀ cs : List Nat, (∀ c ∈ cs, isScalar c) →
    ∃ bs, utf16beEncode cs = some bs ∧ (∀ b ∈ bs, b < 256) ∧
      (cs ≠ [] → bs ≠ []) ∧
      ∀ fuel, bs.length ≤ fuel → utf16beDecodeAux fuel bs = some cs := by
  intro cs
  induction cs with
  | nil =>
    refine fun _ => ⟨[], rfl, by simp, by simp, ?_⟩
    intro fuel _
    cases fuel <;> rfl
  | cons c rest ih =>
    intro hsc
    obtain ⟨bsr, hencr, hbr, _, hdecr⟩ := ih (fun x hx => hsc x (by simp [hx]))
    have hc := hsc c (by simp)
    rw [isScalar] at hc
    by_cases hlt : c < 0x10000
    · have hch : utf16beEncodeChar c = some [c / 256, c % 256] := by
        rw [utf16beEncodeChar, if_neg (by omega), if_pos hlt]
      refine ⟨[c / 256, c % 256] ++ bsr, ?_, ?_, ?_, ?_⟩
      · rw [utf16beEncode, hch, hencr]
      · intro b hb
        rcases List.mem_append.mp hb with h | h
        · rcases List.mem_cons.mp h with h2 | h2
          · omega
          · rcases List.mem_cons.mp h2 with h3 | h3
            · omega
            · cases h3
        · exact hbr b h
      · simp
      · intro fuel hfuel
        simp only [List.cons_append, List.nil_append, List.length_cons] at hfuel ⊢
        match fuel with
        | 0 => omega
        | f + 1 =>
          rw [utf16beDecodeAux]
          have e1 : c / 256 * 256 + c % 256 = c := by omega
          rw [e1, if_pos (by omega), hdecr f (by omega)]
    · have hch : utf16beEncodeChar c =
          some [(0xD800 + (c - 0x10000) / 1024) / 256,
                (0xD800 + (c - 0x10000) / 1024) % 256,
                (0xDC00 + (c - 0x10000) % 1024) / 256,
                (0xDC00 + (c - 0x10000) % 1024) % 256] := by
        rw [utf16beEncodeChar, if_neg (by omega), if_neg (by omega)]
      have hdiv : (c - 0x10000) / 1024 < 1024 := by omega
      refine ⟨[(0xD800 + (c - 0x10000) / 1024) / 256,
               (0xD800 + (c - 0x10000) / 1024) % 256,
               (0xDC00 + (c - 0x10000) % 1024) / 256,
               (0xDC00 + (c - 0x10000) % 1024) % 256] ++ bsr, ?_, ?_, ?_, ?_⟩
      · rw [utf16beEncode, hch, hencr]
      · intro b hb
        rcases List.mem_append.mp hb with h | h
        · simp only [List.mem_cons, List.not_mem_nil, or_false] at h
          rcases h with h | h | h | h <;> omega
        · exact hbr b h
      · simp
      · intro fuel hfuel
        simp only [List.cons_append, List.nil_append, List.length_cons] at hfuel ⊢
        match fuel with
        | 0 => omega
        | f + 1 =>
          rw [utf16beDecodeAux]
          have e1 : (0xD800 + (c - 0x10000) / 1024) / 256 * 256
              + (0xD800 + (c - 0x10000) / 1024) % 256
              = 0xD800 + (c - 0x10000) / 1024 := by omega
          have e2 : (0xDC00 + (c - 0x10000) % 1024) / 256 * 256
              + (0xDC00 + (c - 0x10000) % 1024) % 256
              = 0xDC00 + (c - 0x10000) % 1024 := by omega
          rw [e1, if_neg (by omega), if_pos (by omega)]
          simp only [split2]
          rw [e2, if_pos (by constructor <;> omega), hdecr f (by omega)]
          have e3 : 0x10000 + (0xD800 + (c - 0x10000) / 1024 - 0xD800) * 1024
              + (0xDC00 + (c - 0x10000) % 1024 - 0xDC00) = c := by omega
          rw [e3]

/-- UTF-16-BE round-trip on scalar values, with the byte bounds needed by
the base64 layer. -/
theorem utf16_roundtrip : ∀ cs : List Nat, (∀ c ∈ cs, isScalar c) →
    ∃ bs, utf16beEncode cs = some bs ∧ (∀ b ∈ bs, b < 256) ∧
      (cs ≠ [] → bs ≠ []) ∧ utf16beDecode bs = some cs := by
  intro cs hsc
  obtain ⟨bs, h1, h2, h3, h4⟩ := utf16_roundtrip_aux cs hsc
  exact ⟨bs, h1, h2, h3, h4 bs.length le_rfl⟩

/-- Round-trip of the inner `modified_base64_encode`/`decode` pair on a
non-empty run of scalar code points, together with the facts the scanner
needs about the emitted characters (no `-`, no `&`). -/
theorem modified_base64_roundtrip (run : List Nat) (hsc : ∀ c ∈ run, isScalar c)
    (hne : run ≠ []) :
    ∃ enc, modified_base64_encode run = some enc ∧ enc ≠ [] ∧
      (∀ ch ∈ enc, ch ≠ 45 ∧ ch ≠ 38) ∧ modified_base64_decode enc = some run := by
  obtain ⟨bs, henc, hb256, hbne, hdec⟩ := utf16_roundtrip run hsc
  refine ⟨(b64encodeStripped bs).map (fun c => if c = 47 then 44 else c), ?_, ?_, ?_, ?_⟩
  · rw [modified_base64_encode, henc]
    rfl
  · simp only [ne_eq, List.map_eq_nil_iff]
    exact b64encodeStripped_ne_nil bs (hbne hne)
  · intro ch hch
    obtain ⟨pre, hpre, hchf⟩ := List.mem_map.mp hch
    obtain ⟨i, hi, hpri⟩ := b64encodeStripped_mem bs.length bs le_rfl hb256 pre hpre
    subst hchf
    subst hpri
    exact ⟨(b64Char_facts i hi).2.2.2.2.2.1, (b64Char_facts i hi).2.2.2.2.2.2⟩
  · rw [modified_base64_decode]
    have hpt : ∀ ch ∈ b64encodeStripped bs,
        ((fun c => if c = 44 then 47 else c) ∘ (fun c => if c = 47 then 44 else c)) ch
          = id ch := by
      intro ch hch
      obtain ⟨i, hi, rfl⟩ := b64encodeStripped_mem bs.length bs le_rfl hb256 ch hch
      simpa using (b64Char_facts i hi).2.2.2.2.1
    have hmm : ((b64encodeStripped bs).map (fun c => if c = 47 then 44 else c)).map
        (fun c => if c = 44 then 47 else c) = b64encodeStripped bs := by
      rw [List.map_map, List.map_congr_left hpt, List.map_id]
    rw [hmm]
    have hlen : b64decodeLenient (b64encodeStripped bs) = some bs :=
      b64_roundtrip bs.length bs le_rfl hb256
    rw [hlen]
    exact hdec

/-- The encoder on the empty string (the well-founded definition does not
reduce definitionally, so the equation is recorded once). -/
theorem encode_modified_utf7_nil : encode_modified_utf7 [] = some [] := by
  rw [encode_modified_utf7]

/-- The decoder on the empty string. -/
theorem decode_modified_utf7_nil : decode_modified_utf7 [] = some [] := by
  rw [decode_modified_utf7]

/-- Take/drop while over an append that stops exactly at the marker. -/
theorem takeWhile_append_stop (p : Nat → Bool) (xs : List Nat) (y : Nat) (l : List Nat)
    (hx : ∀ x ∈ xs, p x = true) (hy : p y = false) :
    (xs ++ y :: l).takeWhile p = xs ∧ (xs ++ y :: l).dropWhile p = y :: l := by
  induction xs with
  | nil => simp [List.takeWhile_cons, List.dropWhile_cons, hy]
  | cons a xs ih =>
    have ha : p a = true := hx a (by simp)
    have hr := ih (fun x hmem => hx x (by simp [hmem]))
    simp [List.takeWhile_cons, List.dropWhile_cons, ha, hr.1, hr.2]

/-- The decoder copies a `&`-free prefix verbatim and recurses behind it. -/
theorem decode_clean_prefix (pre : List Nat) (h : ∀ x ∈ pre, x ≠ 38) : ∀ l,
    decode_modified_utf7 (pre ++ l) =
      match decode_modified_utf7 l with
      | none => none
      | some t => some (pre ++ t) := by
  induction pre with
  | nil =>
    intro l
    simp only [List.nil_append]
    cases hd : decode_modified_utf7 l
    · rfl
    · simp
  | cons a pre ih =>
    intro l
    have ha : a ≠ 38 := h a (by simp)
    rw [List.cons_append, decode_modified_utf7, if_neg ha,
      ih (fun x hmem => h x (by simp [hmem])) l]
    cases hd : decode_modified_utf7 l
    · rfl
    · rfl

/-- Round-trip of the codec pair on `&`-free scalar strings, by strong
induction on the length. -/
theorem encode_decode_roundtrip : ∀ n, ∀ s : List Nat, s.length ≤ n →
    (∀ c ∈ s, isScalar c) → (∀ c ∈ s, c ≠ 38) →
    ∃ e, encode_modified_utf7 s = some e ∧ decode_modified_utf7 e = some s := by
  intro n
  induction n with
  | zero =>
    intro s hlen _ _
    cases s with
    | nil => exact ⟨[], encode_modified_utf7_nil, decode_modified_utf7_nil⟩
    | cons c rest => simp at hlen
  | succ n ih =>
    intro s hlen hsc h38
    match s with
    | [] => exact ⟨[], encode_modified_utf7_nil, decode_modified_utf7_nil⟩
    | c :: rest =>
      simp only [List.length_cons] at hlen
      by_cases hc : 127 < c
      · have hrun_sc : ∀ x ∈ c :: rest.takeWhile (fun x => 127 < x), isScalar x := by
          intro x hx
          rcases List.mem_cons.mp hx with h | h
          · subst h; exact hsc x (by simp)
          · exact hsc x (List.mem_cons_of_mem _ ((List.takeWhile_sublist _).subset h))
        obtain ⟨enc, henc, hencne, hencch, hdecenc⟩ :=
          modified_base64_roundtrip (c :: rest.takeWhile (fun x => 127 < x)) hrun_sc
            (by simp)
        obtain ⟨tl, htl, hdectl⟩ := ih (rest.dropWhile (fun x => 127 < x))
          (le_trans (List.dropWhile_sublist _).length_le (by omega))
          (fun x hx => hsc x (List.mem_cons_of_mem _ ((List.dropWhile_sublist _).subset hx)))
          (fun x hx => h38 x (List.mem_cons_of_mem _ ((List.dropWhile_sublist _).subset hx)))
        refine ⟨38 :: enc ++ 45 :: tl, ?_, ?_⟩
        · rw [encode_modified_utf7, if_pos hc, henc, htl]
        · have hcont : (enc ++ 45 :: tl).contains 45 = true := by simp
          have htw := takeWhile_append_stop (fun x => x ≠ 45) enc 45 tl
            (fun x hx => by simpa using (hencch x hx).1) (by simp)
          rw [List.cons_append, decode_modified_utf7, if_pos rfl, if_pos hcont,
            htw.1, htw.2]
          simp only [List.tail_cons]
          rw [if_neg hencne, hdecenc, hdectl]
          show some ((c :: rest.takeWhile (fun x => 127 < x))
              ++ rest.dropWhile (fun x => 127 < x)) = some (c :: rest)
          rw [List.cons_append, List.takeWhile_append_dropWhile]
      · have h38run : ∀ x ∈ c :: rest.takeWhile (fun x => ¬ 127 < x), x ≠ 38 := by
          intro x hx
          rcases List.mem_cons.mp hx with h | h
          · subst h; exact h38 x (by simp)
          · exact h38 x (List.mem_cons_of_mem _ ((List.takeWhile_sublist _).subset h))
        obtain ⟨tl, htl, hdectl⟩ := ih (rest.dropWhile (fun x => ¬ 127 < x))
          (le_trans (List.dropWhile_sublist _).length_le (by omega))
          (fun x hx => hsc x (List.mem_cons_of_mem _ ((List.dropWhile_sublist _).subset hx)))
          (fun x hx => h38 x (List.mem_cons_of_mem _ ((List.dropWhile_sublist _).subset hx)))
        refine ⟨c :: rest.takeWhile (fun x => ¬ 127 < x) ++ tl, ?_, ?_⟩
        · rw [encode_modified_utf7, if_neg hc, htl]
        · have hpre := decode_clean_prefix (c :: rest.takeWhile (fun x => ¬ 127 < x))
            h38run tl
          rw [hpre, hdectl]
          show some ((c :: rest.takeWhile (fun x => ¬ 127 < x))
              ++ rest.dropWhile (fun x => ¬ 127 < x)) = some (c :: rest)
          rw [List.cons_append, List.takeWhile_append_dropWhile]

/-- C4 counterexample: on the two-character string consisting of the code
points of the ampersand and the hyphen, the encoder passes the characters
through unchanged (it never emits a bare ampersand as ampersand-hyphen),
and the decoder then collapses the pair to a lone ampersand, so neither
composition of the codec pair is the identity at this string. -/
theorem modified_utf7_counterexample :
    encode_modified_utf7 [38, 45] = some [38, 45] ∧
    decode_modified_utf7 [38, 45] = some [38] ∧
    encode_modified_utf7 [38] = some [38] ∧
    some [38] ≠ some ([38, 45] : List Nat) := by
  refine ⟨?_, ?_, ?_, by simp⟩
  · rw [encode_modified_utf7, if_neg (by omega)]
    have hdw : ([45] : List Nat).dropWhile (fun x => ¬ 127 < x) = [] := by
      simp [List.dropWhile_cons]
    have htw : ([45] : List Nat).takeWhile (fun x => ¬ 127 < x) = [45] := by
      simp [List.takeWhile_cons]
    rw [hdw, htw, encode_modified_utf7_nil]
    rfl
  · rw [decode_modified_utf7, if_pos rfl]
    have hcont : ([45] : List Nat).contains 45 = true := by simp
    have htw : ([45] : List Nat).takeWhile (fun x => x ≠ 45) = [] := by
      simp [List.takeWhile_cons]
    have hdw : ([45] : List Nat).dropWhile (fun x => x ≠ 45) = [45] := by
      simp [List.dropWhile_cons]
    rw [if_pos hcont, htw, hdw, if_pos rfl]
    simp only [List.tail_cons]
    rw [decode_modified_utf7_nil]
  · rw [encode_modified_utf7, if_neg (by omega)]
    simp only [List.dropWhile_nil, List.takeWhile_nil]
    rw [encode_modified_utf7_nil]
    rfl

/-- C4: the codec pair does not round-trip in general: the encoder emits a
bare ampersand unchanged, not as ampersand-hyphen (see the counterexample);
but on every string of scalar code points that contains no ampersand,
decoding the encoding returns the original string. -/
theorem modified_utf7_roundtrip_amended (s : List Nat)
    (hsc : ∀ c ∈ s, isScalar c) (h38 : ∀ c ∈ s, c ≠ 38) :
    ∃ e, encode_modified_utf7 s = some e ∧ decode_modified_utf7 e = some s :=
  encode_decode_roundtrip s.length s le_rfl hsc h38

/-- C4 witness: the amended round-trip at the concrete string with code
points 72 and 233 (one ASCII character, one character above 127). -/
theorem modified_utf7_roundtrip_amended_witness :
    (∀ c ∈ ([72, 233] : List Nat), isScalar c) ∧
    (∀ c ∈ ([72, 233] : List Nat), c ≠ 38) ∧
    ∃ e, encode_modified_utf7 [72, 233] = some e ∧
      decode_modified_utf7 e = some [72, 233] := by
  have h1 : ∀ c ∈ ([72, 233] : List Nat), isScalar c := by
    intro c hc
    rcases List.mem_cons.mp hc with h | hc
    · subst h; exact ⟨by omega, by omega⟩
    · rcases List.mem_cons.mp hc with h | hc
      · subst h; exact ⟨by omega, by omega⟩
      · cases hc
  have h2 : ∀ c ∈ ([72, 233] : List Nat), c ≠ 38 := by decide
  exact ⟨h1, h2, modified_utf7_roundtrip_amended [72, 233] h1 h2⟩

end OpenMail
